import Mathlib

/-!
# RPCID codec of `syscap_tool.c`

A shallow embedding of `src/syscap_tool.c` (the RPCID encoder, the format
validator, the decoder and the bitmap projector) together with theorems about it.

Conventions of the embedding.

* A byte is a natural number; a block of memory (a `malloc`ed buffer, a file's
  content) is a `List Nat`.  A C string value is the list of its bytes before the
  terminating NUL, so a well-formed string holds no `0`.
* Machine integers are `Nat`/`Int`, reduced explicitly where the C code converts.
* The host is little-endian and lays bit-fields out from the low-order bit of
  their storage unit (GCC/Clang on x86 and ARM): in `RPCIDHead` the member
  `apiVersion` is bits 0..14 and `apiVersionType` is bit 15 of the 16-bit unit,
  which sits in memory low byte first.
* An access outside the accessed object is undefined behaviour in C; here it is the
  distinguished result `fault`.
* `malloc`, the cJSON tree constructors and the file operations of
  `ConvertedContextSaveAsFile` are taken to succeed; the input file of
  `GetFileContext` exists and is readable.
-/

namespace SyscapTool

/-! ## Constants of `syscap_tool.c` -/

/-- The C macro SINGLE_FEAT_LENGTH. -/
abbrev SINGLE_FEAT_LENGTH : Nat := 128

/-- The C macro UINT8_BIT. -/
abbrev UINT8_BIT : Nat := 8

/-- The C macro RPCID_OUT_BUFFER. -/
abbrev RPCID_OUT_BUFFER : Nat := 32

/-- The C macro BYTES_OF_OS_SYSCAP. -/
abbrev BYTES_OF_OS_SYSCAP : Nat := 120

/-- The C macro U32_TO_STR_MAX_LEN. -/
abbrev U32_TO_STR_MAX_LEN : Nat := 11

/-- The securec status EOK. -/
abbrev EOK : Int := 0

/-- The securec status ERANGE_AND_RESET (ERANGE with the reset flag 0x80). -/
abbrev ERANGE_AND_RESET : Int := 162

/-- The bytes of the string literal "SystemCapability." (17 characters). -/
def capHead : List Nat :=
  [83, 121, 115, 116, 101, 109, 67, 97, 112, 97, 98, 105, 108, 105, 116, 121, 46]

/-- The bytes of an ASCII string literal. -/
def ascii (s : String) : List Nat := s.toList.map Char.toNat

/-! ## Results -/

/-- Result of a step that can leave its objects (fault), take an error path with a
status (fail), or produce a value (ok). -/
inductive Res (α : Type) where
  | fault : Res α
  | fail (ret : Int) : Res α
  | ok (val : α) : Res α
deriving DecidableEq

/-- What one of the three tool operations leaves behind: the status it returns and
the content of the output file when one was written; or a fault. -/
inductive Outcome (α : Type) where
  | fault : Outcome α
  | exit (ret : Int) (file : Option α) : Outcome α
deriving DecidableEq

/-! ## Integer conversions -/

/-- Conversion to uint16_t. -/
def toU16 (x : Int) : Nat := (x % 65536).toNat

/-- Conversion to uint32_t. -/
def toU32 (x : Nat) : Nat := x % 4294967296

/-- Conversion of a size_t to int, as in the return of cJSON_GetArraySize. -/
def toInt32 (n : Nat) : Int :=
  if n % 4294967296 < 2147483648 then ((n % 4294967296 : Nat) : Int)
  else ((n % 4294967296 : Nat) : Int) - 4294967296

/-- Modelled from the spec: endian_internal.h is not under src/; the spec calls
HtonsInter the host-to-network 16-bit conversion primitive. On the little-endian
host it exchanges the two bytes of its uint16_t argument. -/
def HtonsInter (h : Nat) : Nat := (h % 256) * 256 + (h / 256) % 256

/-- Modelled from the spec: endian_internal.h is not under src/; the spec calls
NtohsInter the network-to-host 16-bit conversion primitive. On the little-endian
host it exchanges the two bytes of its uint16_t argument. -/
def NtohsInter (n : Nat) : Nat := (n % 256) * 256 + (n / 256) % 256

/-! ## Memory -/

/-- Copy of the bytes src to offset off of a block; none when the destination range
leaves the block. -/
def writeAt (mem : List Nat) (off : Nat) (src : List Nat) : Option (List Nat) :=
  if off + src.length ≤ mem.length then
    some (mem.take off ++ src ++ mem.drop (off + src.length))
  else none

/-- The read of a uint16_t object at offset off: low byte first. -/
def load16 (mem : List Nat) (off : Nat) : Option Nat :=
  match mem[off]?, mem[off + 1]? with
  | some lo, some hi => some (lo % 256 + 256 * (hi % 256))
  | _, _ => none

/-- The write of a uint16_t object at offset off: low byte first. -/
def store16 (mem : List Nat) (off : Nat) (v : Nat) : Option (List Nat) :=
  writeAt mem off [v % 256, v / 256 % 256]

/-! ## The bit-fields of `RPCIDHead` -/

/-- Read of the member apiVersion (15 bits) from the 16-bit unit w. -/
def getApiVersion (w : Nat) : Nat := w % 32768

/-- Read of the member apiVersionType (1 bit) from the 16-bit unit w. -/
def getApiVersionType (w : Nat) : Nat := w / 32768 % 2

/-- The unit w after the assignment of v to the member apiVersion. -/
def setApiVersion (w v : Nat) : Nat := (w / 32768 % 2) * 32768 + v % 32768

/-- The unit w after the assignment of t to the member apiVersionType. -/
def setApiVersionType (w t : Nat) : Nat := (t % 2) * 32768 + w % 32768

/-- The C expression sizeof(RPCIDHead). -/
abbrev sizeofRPCIDHead : Nat := 2

/-! ## String functions -/

/-- The C function strchr on a string value: the offset of the first occurrence of
the (non-NUL) character c, none for a NULL result. -/
def strchr : List Nat → Nat → Option Nat
  | [], _ => none
  | a :: as, c => if a = c then some 0 else (strchr as c).map (· + 1)

/-- The C function strncmp on two string values: the difference of the first pair
of bytes that differ among the first n, the terminating NUL included; 0 when there
is none. -/
def strncmp : List Nat → List Nat → Nat → Int
  | _, _, 0 => 0
  | [], [], _ + 1 => 0
  | [], b :: _, _ + 1 => 0 - (b : Int)
  | a :: _, [], _ + 1 => (a : Int)
  | a :: as, b :: bs, n + 1 => if a = b then strncmp as bs n else (a : Int) - (b : Int)

/-- The C function strlen at offset p of a block: the number of bytes before the
first NUL at or after p; none when the scan leaves the block first. -/
def strlenFrom : List Nat → Option Nat
  | [] => none
  | b :: bs => if b = 0 then some 0 else (strlenFrom bs).map (· + 1)

/-- The C function strlen applied to the pointer mem + p. -/
def strlen (mem : List Nat) (p : Nat) : Option Nat := strlenFrom (mem.drop p)

/-- The securec function memcpy_s(mem + dest, destMax, src, count) with
count = src.length: with count at most destMax the bytes are copied and the status
is EOK (also for count = 0); with count above destMax the destMax destination bytes
are cleared and the status is ERANGE_AND_RESET. -/
def memcpy_s (mem : List Nat) (dest destMax : Nat) (src : List Nat) :
    Option (Int × List Nat) :=
  if src.length ≤ destMax then (writeAt mem dest src).map (fun m => (EOK, m))
  else (writeAt mem dest (List.replicate destMax 0)).map (fun m => (ERANGE_AND_RESET, m))

/-! ## The descriptor -/

/-- The descriptor as the cJSON tree shows it to the tool: the item "api_version"
when it is a number (its valueint), the item "syscap" when it is an array (of
strings, each given by its valuestring). -/
structure Json where
  api_version : Option Int
  syscap : Option (List (List Nat))
deriving DecidableEq

/-! ## RPCIDEncode -/

/-- The loop of RPCIDEncode over the array items, fillTmpPtr being the offset of the
next slot in convertedBuffer. -/
def encodeLoop : List (List Nat) → Nat → List Nat → Res (List Nat)
  | [], _, convertedBuffer => .ok convertedBuffer
  | valuestring :: rest, fillTmpPtr, convertedBuffer =>
    match strchr valuestring 46 with
    | none => .fail (-1)
    | some pointPos =>
      if strncmp valuestring capHead (pointPos + 1) ≠ 0 then .fail (-1)
      else
        match memcpy_s convertedBuffer fillTmpPtr SINGLE_FEAT_LENGTH
            (valuestring.drop (pointPos + 1)) with
        | none => .fault
        | some (ret, convertedBuffer1) =>
          if ret ≠ 0 then .fail (-1)
          else encodeLoop rest (fillTmpPtr + SINGLE_FEAT_LENGTH) convertedBuffer1

/-- The header writes of RPCIDEncode: the two bit-field assignments through headPtr
and the two uint16_t stores through fillTmpPtr. -/
def encodeHead (convertedBuffer : List Nat) (valueint : Int) (sysCapSize : Nat) :
    Option (List Nat) :=
  match load16 convertedBuffer 0 with
  | none => none
  | some w0 =>
    match store16 convertedBuffer 0 (setApiVersion w0 (HtonsInter (toU16 valueint))) with
    | none => none
    | some b1 =>
      match load16 b1 0 with
      | none => none
      | some w1 =>
        match store16 b1 0 (setApiVersionType w1 1) with
        | none => none
        | some b2 =>
          match store16 b2 sizeofRPCIDHead (HtonsInter 2) with
          | none => none
          | some b3 =>
            store16 b3 (sizeofRPCIDHead + 2)
              (HtonsInter (toU16 ((toU32 (sysCapSize * SINGLE_FEAT_LENGTH) : Nat) : Int)))

/-- The function RPCIDEncode on the parsed input file; the file of the outcome is
the content of rpcid.sc. -/
def RPCIDEncode (root : Json) : Outcome (List Nat) :=
  match root.syscap with
  | none => .exit (-1) none
  | some sysCapPtr =>
    let ret := toInt32 sysCapPtr.length
    if ret < 0 then .exit (-1) none
    else
      let sysCapSize := ret.toNat
      let convertedBufLen :=
        toU32 (sizeofRPCIDHead + (2 * 2 + toU32 (sysCapSize * SINGLE_FEAT_LENGTH)))
      let convertedBuffer := List.replicate convertedBufLen 0
      match root.api_version with
      | none => .exit (-1) none
      | some valueint =>
        match encodeHead convertedBuffer valueint sysCapSize with
        | none => .fault
        | some filled =>
          match encodeLoop (sysCapPtr.take sysCapSize)
              (sizeofRPCIDHead + 2 + 2) filled with
          | .fault => .fault
          | .fail ret => .exit ret none
          | .ok out => .exit 0 (some out)

/-! ## GetFileContext and CheckRpcidFormat -/

/-- The function GetFileContext on the content of the input file: the buffer holds
the file followed by one NUL, and the reported length is st_size + 1 as a uint32_t.
An empty file is an error: fread of one member of size 0 returns 0. -/
def GetFileContext (file : List Nat) : Option (List Nat × Nat) :=
  if file.length = 0 then none
  else some (file ++ [0], toU32 (file.length + 1))

/-- The checks of CheckRpcidFormat on the buffer and length that GetFileContext
returned. -/
def checkRpcidBuffer (contextBuffer : List Nat) (bufferLen : Nat) : Res Unit :=
  if bufferLen < 2 * 4 then .fail (-1)
  else
    match load16 contextBuffer 0 with
    | none => .fault
    | some rpcidHeader =>
      if getApiVersionType rpcidHeader ≠ 1 then .fail (-1)
      else
        match load16 contextBuffer sizeofRPCIDHead with
        | none => .fault
        | some w1 =>
          let sysCaptype := NtohsInter w1
          if sysCaptype ≠ 2 then .fail (-1)
          else
            match load16 contextBuffer (sizeofRPCIDHead + 2) with
            | none => .fault
            | some w2 =>
              let sysCapLength := NtohsInter w2
              if bufferLen < sizeofRPCIDHead + 4 + sysCapLength then .fail (-1)
              else .ok ()

/-- The function CheckRpcidFormat on the content of the input file; on success the
buffer and its length. -/
def CheckRpcidFormat (inputFile : List Nat) : Res (List Nat × Nat) :=
  match GetFileContext inputFile with
  | none => .fail (-1)
  | some (contextBuffer, bufferLen) =>
    match checkRpcidBuffer contextBuffer bufferLen with
    | .fault => .fault
    | .fail ret => .fail ret
    | .ok _ => .ok (contextBuffer, bufferLen)

/-! ## ParseRpcidToJson -/

/-- The securec function strncat_s(dest, destMax, src, count) on string values, dest
holding the string d and src the string s: the first min(count, strlen s) bytes of s
are appended when the result and its NUL fit in destMax bytes; otherwise the status
is ERANGE_AND_RESET. -/
def strncat_s (d : List Nat) (destMax : Nat) (s : List Nat) (count : Nat) :
    Int × List Nat :=
  if d.length + (s.take count).length + 1 ≤ destMax then (EOK, d ++ s.take count)
  else (ERANGE_AND_RESET, [])

/-- The loop of ParseRpcidToJson: slot i of sysCapCount = i + remaining, the array
sysCapJson built so far. -/
def parseLoop (input : List Nat) (sysCapBegin : Nat) :
    Nat → Nat → List (List Nat) → Res (List (List Nat))
  | _, 0, sysCapJson => .ok sysCapJson
  | i, remaining + 1, sysCapJson =>
    let temp := sysCapBegin + i * SINGLE_FEAT_LENGTH
    match strlen input temp with
    | none => .fault
    | some len =>
      if len ≥ SINGLE_FEAT_LENGTH then .fail (-1)
      else
        match strncat_s capHead (SINGLE_FEAT_LENGTH + 17)
            ((input.drop temp).take len) SINGLE_FEAT_LENGTH with
        | (ret, buffer) =>
          if ret ≠ EOK then .fail ret
          else parseLoop input sysCapBegin (i + 1) remaining (sysCapJson ++ [buffer])

/-- The function ParseRpcidToJson; on success the object rpcidJson. -/
def ParseRpcidToJson (input : List Nat) (_inputLen : Nat) : Res Json :=
  match load16 input 4 with
  | none => .fault
  | some w2 =>
    let sysCapLength := NtohsInter w2
    let sysCapCount := sysCapLength / SINGLE_FEAT_LENGTH
    let sysCapBegin := sizeofRPCIDHead + 4
    match parseLoop input sysCapBegin 0 sysCapCount [] with
    | .fault => .fault
    | .fail ret => .fail ret
    | .ok sysCapJson =>
      match load16 input 0 with
      | none => .fault
      | some rpcidHeader =>
        .ok { api_version := some ((NtohsInter (getApiVersion rpcidHeader) : Nat) : Int),
              syscap := some sysCapJson }

/-! ## RPCIDDecode -/

/-- The function RPCIDDecode on the content of the input file; the file of the
outcome is the tree that cJSON_Print renders into rpcid.json. -/
def RPCIDDecode (inputFile : List Nat) : Outcome Json :=
  let ret : Int := 0
  match CheckRpcidFormat inputFile with
  | .fault => .fault
  | .fail _ => .exit ret none
  | .ok (contextBuffer, bufferLen) =>
    match ParseRpcidToJson contextBuffer bufferLen with
    | .fault => .fault
    | .fail _ => .exit ret none
    | .ok rpcidRoot => .exit 0 (some rpcidRoot)

/-! ## SetOsSysCapBitMap -/

/-- The loop of SetOsSysCapBitMap over the indices; the status and the array out
as the loop leaves it, none when a write leaves out. -/
def setBitLoop : List Nat → List Nat → Option (Int × List Nat)
  | [], out => some (0, out)
  | index :: rest, out =>
    let sector := index / UINT8_BIT
    let pos := index % UINT8_BIT
    if sector ≥ BYTES_OF_OS_SYSCAP then some (-1, out)
    else
      match out[sector]? with
      | none => none
      | some byte => setBitLoop rest (out.set sector ((byte ||| (1 <<< pos)) % 256))

/-- The function SetOsSysCapBitMap on the array out, the length outLen given for
it and the indexLen indices. -/
def SetOsSysCapBitMap (out : List Nat) (outLen : Nat) (index : List Nat) :
    Option (Int × List Nat) :=
  if outLen ≠ BYTES_OF_OS_SYSCAP then some (-1, out)
  else setBitLoop index out

/-! ## DecodeRpcidToString -/

/-- One element of the table arraySyscap of syscap_define.h, which is not under
src/: the capability name and its number. -/
structure SyscapWithNum where
  syscapStr : List Nat
  num : Nat
deriving DecidableEq

/-- The function CreateWholeSyscapJsonObj: the object whose members are the names
of arraySyscap, in order, each with the number of its entry. -/
def CreateWholeSyscapJsonObj (arraySyscap : List SyscapWithNum) : List (List Nat × Int) :=
  arraySyscap.map (fun e => (e.syscapStr, (e.num : Int)))

/-- The C function tolower on a byte. -/
def tolower (c : Nat) : Nat := if 65 ≤ c ∧ c ≤ 90 then c + 32 else c

/-- The cJSON function cJSON_GetObjectItem on an object of numbers: the valueint of
the first member whose name equals the given one without regard to case. -/
def cJSON_GetObjectItem (object : List (List Nat × Int)) (name : List Nat) : Option Int :=
  (object.find? (fun item => item.1.map tolower == name.map tolower)).map (fun item => item.2)

/-- The securec function strncpy_s(dest, destMax, src, count) on a string value:
the status and the string left in dest, which is the first min(count, strlen src)
bytes of src when they and the NUL fit in destMax bytes. -/
def strncpy_s (destMax : Nat) (src : List Nat) (count : Nat) : Int × List Nat :=
  if destMax = 0 ∨ count = 0 then (ERANGE_AND_RESET, [])
  else if (src.take count).length < destMax then (EOK, src.take count)
  else (ERANGE_AND_RESET, [])

/-- The partition loop of DecodeRpcidToString: the status ret, the indices stored
in osSysCapIndex and the strings stored in the slots of priSyscap so far; the
result holds the three after the loop, or the status of a failed strncpy_s. -/
def partitionLoop (sysCapDefine : List (List Nat × Int)) (destMax : Nat) :
    List (List Nat) → Int → List Nat → List (List Nat) →
      Res (Int × List Nat × List (List Nat))
  | [], ret, osSysCapIndex, priSyscap => .ok (ret, osSysCapIndex, priSyscap)
  | valuestring :: rest, ret, osSysCapIndex, priSyscap =>
    match cJSON_GetObjectItem sysCapDefine valuestring with
    | some valueint =>
      partitionLoop sysCapDefine destMax rest ret (osSysCapIndex ++ [toU16 valueint]) priSyscap
    | none =>
      match strncpy_s destMax valuestring (SINGLE_FEAT_LENGTH - 1) with
      | (ret1, copied) =>
        if ret1 ≠ EOK then .fail ret1
        else partitionLoop sysCapDefine destMax rest ret1 osSysCapIndex (priSyscap ++ [copied])

/-- The 32-bit words that overlay a byte array on the little-endian host. -/
def wordsOfBytes : List Nat → List Nat
  | b0 :: b1 :: b2 :: b3 :: rest =>
    (b0 + 256 * b1 + 65536 * b2 + 16777216 * b3) :: wordsOfBytes rest
  | _ => []

/-- The text of the conversion %u. -/
def utoa (n : Nat) : List Nat := (Nat.toDigits 10 n).map Char.toNat

/-- The securec function sprintf_s(dest, destMax, ...) for the formatted text: the
returned count and the string left in dest; -1 and the empty string when the text
and its NUL do not fit in destMax bytes. -/
def sprintf_s (destMax : Nat) (text : List Nat) : Int × List Nat :=
  if text.length + 1 ≤ destMax then ((text.length : Int), text) else (-1, [])

/-- The loops of DecodeRpcidToString that append a comma and one more field to
outBuffer, over the texts of the fields. -/
def appendFields : List (List Nat) → Nat → List Nat → Res (List Nat)
  | [], _, outBuffer => .ok outBuffer
  | field :: rest, outBufferLen, outBuffer =>
    match sprintf_s outBufferLen (outBuffer ++ 44 :: field) with
    | (ret, outBuffer1) =>
      if ret = -1 then .fail ret else appendFields rest outBufferLen outBuffer1

/-- The function DecodeRpcidToString on the table arraySyscap and the content of the
input file; the file of the outcome is the content of RPCID.txt. -/
def DecodeRpcidToString (arraySyscap : List SyscapWithNum) (inputFile : List Nat) :
    Outcome (List Nat) :=
  let ret : Int := 0
  match CheckRpcidFormat inputFile with
  | .fault => .fault
  | .fail _ => .exit ret none
  | .ok (contextBuffer, bufferLen) =>
    match ParseRpcidToJson contextBuffer bufferLen with
    | .fault => .fault
    | .fail _ => .exit ret none
    | .ok rpcidRoot =>
      let sysCapDefine := CreateWholeSyscapJsonObj arraySyscap
      match rpcidRoot.syscap with
      | none => .exit ret none
      | some sysCapArray =>
        let sysCapArraySize := toInt32 sysCapArray.length
        if sysCapArraySize < 0 then .exit ret none
        else
          match partitionLoop sysCapDefine (sysCapArraySize.toNat * SINGLE_FEAT_LENGTH)
              (sysCapArray.take sysCapArraySize.toNat) ret [] [] with
          | .fault => .fault
          | .fail ret1 => .exit ret1 none
          | .ok (ret1, osSysCapIndex, priSyscap) =>
            match load16 contextBuffer 0, load16 contextBuffer 4 with
            | some rpcidHeader, some w2 =>
              let outUint0 := NtohsInter (getApiVersion rpcidHeader)
              let outUint1 := NtohsInter w2
              match SetOsSysCapBitMap (List.replicate BYTES_OF_OS_SYSCAP 0) 120
                  osSysCapIndex with
              | none => .fault
              | some (ret2, osOutUint) =>
                if ret2 ≠ 0 then .exit ret1 none
                else
                  let outUint := outUint0 :: outUint1 :: wordsOfBytes osOutUint
                  let outBufferLen := toU16 ((U32_TO_STR_MAX_LEN * RPCID_OUT_BUFFER : Nat) +
                    ((SINGLE_FEAT_LENGTH + 1 : Nat) : Int) * sysCapArraySize)
                  match sprintf_s outBufferLen (utoa outUint0) with
                  | (ret3, outBuffer) =>
                    if ret3 = -1 then .exit ret3 none
                    else
                      match appendFields ((outUint.drop 1).map utoa ++ priSyscap)
                          outBufferLen outBuffer with
                      | .fault => .fault
                      | .fail ret4 => .exit ret4 none
                      | .ok text => .exit 0 (some text)
            | _, _ => .fault

/-! ## Notions used to state the properties -/

/-- The 16-bit value that the two bytes at offset off hold in network (big-endian)
byte order; bytes outside the block count as 0. -/
def be16At (mem : List Nat) (off : Nat) : Nat := 256 * mem.getD off 0 + mem.getD (off + 1) 0

/-- The six header bytes for the 16-bit value u of api_version and the 16-bit
content len of the length field, as RPCIDEncode leaves them on the little-endian
host. -/
def headBytes (u len : Nat) : List Nat :=
  [u / 256 % 256, 128 + u % 128, 0, 2, len / 256 % 256, len % 256]

/-- The 128-byte slot that holds the name suffix suf: the bytes of suf, then NULs. -/
def slotOf (suf : List Nat) : List Nat :=
  suf ++ List.replicate (SINGLE_FEAT_LENGTH - suf.length) 0

/-- The member apiVersionType of the RPCIDHead at the start of a block: the bit-field
read of its first 16-bit unit, low byte first. -/
def apiVersionTypeBit (mem : List Nat) : Nat :=
  getApiVersionType (mem.getD 0 0 + 256 * mem.getD 1 0)

/-- The slot of index i of an RPCID file: its 128 bytes from offset 6 + 128 i. -/
def slotAt (file : List Nat) (i : Nat) : List Nat :=
  (file.drop (6 + SINGLE_FEAT_LENGTH * i)).take SINGLE_FEAT_LENGTH

/-- The string that a slot holds: its bytes before the first NUL. -/
def slotString (slot : List Nat) : List Nat := slot.takeWhile (fun b => b != 0)

/-- Bit (k mod 8) of byte (k div 8) of a byte array. -/
def bitAt (out : List Nat) (k : Nat) : Bool := (out.getD (k / 8) 0).testBit (k % 8)

/-- Equality of two names without regard to the case of their letters, the
comparison that cJSON_GetObjectItem makes. -/
def sameNameNoCase (a b : List Nat) : Bool := a.map tolower == b.map tolower

/-- The entry of arraySyscap that the lookup of a name finds: the first one whose
name equals it without regard to case. -/
def registryEntry (arraySyscap : List SyscapWithNum) (name : List Nat) : Option SyscapWithNum :=
  arraySyscap.find? (fun e => sameNameNoCase e.syscapStr name)

/-- The OS index list of a list of decoded names: for each name that the lookup
finds in arraySyscap, in order, the number of its entry as a uint16_t. -/
def osIndexList (arraySyscap : List SyscapWithNum) (names : List (List Nat)) : List Nat :=
  names.filterMap (fun nm => (registryEntry arraySyscap nm).map (fun e => e.num % 65536))

/-- The private list of a list of decoded names: for each name that the lookup does
not find in arraySyscap, in order, its first 127 bytes. -/
def privateList (arraySyscap : List SyscapWithNum) (names : List (List Nat)) :
    List (List Nat) :=
  (names.filter (fun nm => (registryEntry arraySyscap nm).isNone)).map (List.take 127)

/-! ## Lemmas: byte order and the header -/

theorem HtonsInter_lo (h : Nat) : HtonsInter h % 256 = h / 256 % 256 := by
  unfold HtonsInter; omega

theorem HtonsInter_div (h : Nat) : HtonsInter h / 256 = h % 256 := by
  unfold HtonsInter; omega

theorem HtonsInter_mod (h : Nat) : HtonsInter h % 32768 = (h % 128) * 256 + h / 256 % 256 := by
  unfold HtonsInter; omega

theorem setApiVersion_zero (u : Nat) :
    setApiVersion 0 (HtonsInter u) = (u % 128) * 256 + u / 256 % 256 := by
  unfold setApiVersion; rw [HtonsInter_mod]; omega

theorem headWord_eq (u : Nat) :
    setApiVersionType
      (setApiVersion 0 (HtonsInter u) % 256 + 256 * (setApiVersion 0 (HtonsInter u) / 256 % 256)) 1
      = 32768 + ((u % 128) * 256 + u / 256 % 256) := by
  rw [setApiVersion_zero]; unfold setApiVersionType; omega

theorem replicate_six_add (k : Nat) :
    List.replicate (6 + k) 0 = 0 :: 0 :: 0 :: 0 :: 0 :: 0 :: List.replicate k 0 := by
  rw [show 6 + k = k + 1 + 1 + 1 + 1 + 1 + 1 by omega]
  simp only [List.replicate_succ]

theorem encodeHead_replicate (k : Nat) (valueint : Int) (sysCapSize : Nat) :
    encodeHead (List.replicate (6 + k) 0) valueint sysCapSize =
      some (headBytes (toU16 valueint)
        (toU16 ((toU32 (sysCapSize * SINGLE_FEAT_LENGTH) : Nat) : Int)) ++ List.replicate k 0) := by
  rw [replicate_six_add]
  simp only [encodeHead, load16, store16, writeAt, sizeofRPCIDHead, headBytes]
  simp only [List.length_cons, List.getElem?_cons_zero, List.getElem?_cons_succ, Nat.zero_mod,
    Nat.mul_zero, Nat.add_zero, Nat.zero_add, List.take_zero, List.nil_append, List.drop_succ_cons,
    List.drop_zero, List.cons_append, List.take_succ_cons, List.length_replicate]
  simp [headWord_eq, HtonsInter_lo, HtonsInter_div]
  have h : ∀ a b : Nat, b < 256 → (32768 + (a * 256 + b)) / 256 = 128 + a := by
    intro a b hb; omega
  rw [h _ _ (Nat.mod_lt _ (by norm_num))]
  constructor <;> omega


theorem slotOf_length (suf : List Nat) (h : suf.length ≤ 128) : (slotOf suf).length = 128 := by
  simp only [slotOf, SINGLE_FEAT_LENGTH, List.length_append, List.length_replicate]; omega

theorem writeAt_mid (pre mid post src : List Nat) (h : mid.length = src.length) :
    writeAt (pre ++ (mid ++ post)) pre.length src = some (pre ++ (src ++ post)) := by
  unfold writeAt
  have h1 : pre.length + src.length ≤ (pre ++ (mid ++ post)).length := by
    simp [h]
  rw [if_pos h1]
  have h2 : List.drop (pre.length + src.length) (pre ++ (mid ++ post)) = post := by
    rw [List.drop_append, ← h, List.drop_left]
  rw [h2, List.take_left, List.append_assoc]

theorem strchr_capHead (suf : List Nat) : strchr (capHead ++ suf) 46 = some 16 := by
  simp [capHead, strchr]

theorem strncmp_capHead (suf : List Nat) : strncmp (capHead ++ suf) capHead (16 + 1) = 0 := by
  simp [capHead, strncmp]

theorem drop_capHead (suf : List Nat) : (capHead ++ suf).drop (16 + 1) = suf := by
  simp [capHead]

theorem encodeLoop_slots (l : List (List Nat)) :
    ∀ (pre post : List Nat), (∀ suf ∈ l, suf.length ≤ 128) →
      encodeLoop (l.map (capHead ++ ·)) pre.length
          (pre ++ (List.replicate (128 * l.length) 0 ++ post))
        = .ok (pre ++ ((l.map slotOf).flatten ++ post)) := by
  induction l with
  | nil => intro pre post _; simp [encodeLoop]
  | cons suf rest ih =>
    intro pre post hl
    have hs : suf.length ≤ 128 := hl suf (List.mem_cons_self _ _)
    have hr : ∀ s ∈ rest, s.length ≤ 128 := fun s hs => hl s (List.mem_cons_of_mem _ hs)
    have hsplit : List.replicate (128 * (suf :: rest).length) 0 =
        List.replicate suf.length 0 ++ (List.replicate (128 - suf.length) 0 ++
          List.replicate (128 * rest.length) 0) := by
      rw [← List.replicate_add, ← List.replicate_add]
      congr 1
      simp only [List.length_cons]; omega
    have hw : writeAt (pre ++ (List.replicate (128 * (suf :: rest).length) 0 ++ post)) pre.length suf
        = some ((pre ++ slotOf suf) ++ (List.replicate (128 * rest.length) 0 ++ post)) := by
      rw [hsplit, List.append_assoc, writeAt_mid _ _ _ _ (by simp)]
      simp only [slotOf, SINGLE_FEAT_LENGTH, List.append_assoc]
    have hlen : pre.length + SINGLE_FEAT_LENGTH = (pre ++ slotOf suf).length := by
      rw [List.length_append, slotOf_length _ hs]
    have hs2 : suf.length ≤ SINGLE_FEAT_LENGTH := hs
    simp only [List.map_cons, encodeLoop, strchr_capHead, strncmp_capHead, drop_capHead,
      memcpy_s, if_pos hs2, hw, Option.map_some']
    simp only [ne_eq, not_true_eq_false, if_false, EOK]
    rw [hlen, ih _ _ hr]
    simp [List.flatten_cons]


theorem toInt32_small (n : Nat) (h : n < 2147483648) : toInt32 n = (n : Int) := by
  unfold toInt32
  rw [Nat.mod_eq_of_lt (by omega), if_pos h]

theorem toU32_small (n : Nat) (h : n < 4294967296) : toU32 n = n := by
  unfold toU32; exact Nat.mod_eq_of_lt h

theorem toU16_natCast (n : Nat) : toU16 (n : Int) = n % 65536 := by
  unfold toU16; omega

theorem headBytes_length (u len : Nat) : (headBytes u len).length = 6 := rfl

theorem RPCIDEncode_wellformed (valueint : Int) (sufs : List (List Nat))
    (hn : sufs.length < 33554432) (hl : ∀ suf ∈ sufs, suf.length ≤ 128) :
    RPCIDEncode ⟨some valueint, some (sufs.map (capHead ++ ·))⟩ =
      .exit 0 (some (headBytes (toU16 valueint) (128 * sufs.length % 65536) ++
        (sufs.map slotOf).flatten)) := by
  have h1 : toInt32 sufs.length = (sufs.length : Int) := toInt32_small _ (by omega)
  have h2 : toU32 (sufs.length * SINGLE_FEAT_LENGTH) = 128 * sufs.length := by
    rw [toU32_small _ (by simp only [SINGLE_FEAT_LENGTH]; omega)]; simp only [SINGLE_FEAT_LENGTH]; omega
  have h3 : toU32 (sizeofRPCIDHead + (2 * 2 + 128 * sufs.length)) = 6 + 128 * sufs.length := by
    rw [toU32_small _ (by simp only [sizeofRPCIDHead]; omega)]; simp only [sizeofRPCIDHead]; omega
  have h4 := encodeLoop_slots sufs (headBytes (toU16 valueint) (128 * sufs.length % 65536)) []
    hl
  simp only [List.append_nil, headBytes_length] at h4
  simp only [RPCIDEncode, List.length_map, h1, Int.toNat_ofNat, h2, h3, encodeHead_replicate,
    toU16_natCast, List.take_length]
  have h5 : ¬ ((sufs.length : Int) < 0) := by omega
  rw [if_neg h5]
  have h6 : List.take sufs.length (List.map (fun x => capHead ++ x) sufs) =
      List.map (fun x => capHead ++ x) sufs := by
    rw [List.take_of_length_le (by simp)]
  simp only [h6, sizeofRPCIDHead, h4]


theorem strlenFrom_append_zero (suf rest : List Nat) (h : ∀ b ∈ suf, b ≠ 0) :
    strlenFrom (suf ++ 0 :: rest) = some suf.length := by
  induction suf with
  | nil => simp [strlenFrom]
  | cons a as ih =>
    have ha : a ≠ 0 := h a (List.mem_cons_self _ _)
    have has : ∀ b ∈ as, b ≠ 0 := fun b hb => h b (List.mem_cons_of_mem _ hb)
    simp [strlenFrom, ha, ih has]

theorem slotOf_eq_cons (suf : List Nat) (h : suf.length < 128) :
    slotOf suf = suf ++ 0 :: List.replicate (127 - suf.length) 0 := by
  unfold slotOf
  rw [show SINGLE_FEAT_LENGTH - suf.length = (127 - suf.length) + 1 by
    simp only [SINGLE_FEAT_LENGTH]; omega, List.replicate_succ]

theorem parseLoop_slots (pre post : List Nat) (sysCapBegin : Nat) (hpre : pre.length = sysCapBegin)
    (l : List (List Nat)) :
    ∀ (done : List Nat) (i : Nat) (acc : List (List Nat)), done.length = i * 128 →
      (∀ suf ∈ l, suf.length < 128 ∧ ∀ b ∈ suf, b ≠ 0) →
      parseLoop (pre ++ (done ++ ((l.map slotOf).flatten ++ post))) sysCapBegin i l.length acc
        = .ok (acc ++ l.map (capHead ++ ·)) := by
  induction l with
  | nil => intro done i acc _ _; simp [parseLoop]
  | cons suf rest ih =>
    intro done i acc hdone hl
    obtain ⟨hs, hz⟩ := hl suf (List.mem_cons_self _ _)
    have hr : ∀ s ∈ rest, s.length < 128 ∧ ∀ b ∈ s, b ≠ 0 :=
      fun s hs => hl s (List.mem_cons_of_mem _ hs)
    have hdrop : List.drop (sysCapBegin + i * SINGLE_FEAT_LENGTH)
        (pre ++ (done ++ (((suf :: rest).map slotOf).flatten ++ post))) =
        suf ++ 0 :: (List.replicate (127 - suf.length) 0 ++ ((rest.map slotOf).flatten ++ post)) := by
      rw [← List.append_assoc, List.drop_left' (by simp [hpre, hdone])]
      simp [List.flatten_cons, slotOf_eq_cons _ hs]
    have hcat : strncat_s capHead (SINGLE_FEAT_LENGTH + 17) suf SINGLE_FEAT_LENGTH =
        (EOK, capHead ++ suf) := by
      have ht : suf.take SINGLE_FEAT_LENGTH = suf := List.take_of_length_le (by
        simp only [SINGLE_FEAT_LENGTH]; omega)
      unfold strncat_s
      rw [ht, if_pos (by simp only [SINGLE_FEAT_LENGTH, capHead, List.length_cons, List.length_nil]; omega)]
    have hnext := ih (done ++ slotOf suf) (i + 1) (acc ++ [capHead ++ suf])
      (by rw [List.length_append, slotOf_length _ (by omega), hdone]; omega) hr
    have hlen : ¬ (suf.length ≥ SINGLE_FEAT_LENGTH) := by simp only [SINGLE_FEAT_LENGTH]; omega
    simp only [List.length_cons, parseLoop, strlen, hdrop, strlenFrom_append_zero _ _ hz,
      List.take_left, hcat, if_neg hlen]
    simp only [ne_eq, not_true_eq_false, if_false]
    simp only [List.map_cons, List.flatten_cons, List.append_assoc] at hnext ⊢
    rw [hnext]
    simp


theorem strchr_some (c : Nat) (s : List Nat) :
    ∀ p, strchr s c = some p → s[p]? = some c ∧ ∀ i, i < p → s[i]? ≠ some c := by
  induction s with
  | nil => intro p h; simp [strchr] at h
  | cons a as ih =>
    intro p h
    by_cases hac : a = c
    · simp only [strchr, if_pos hac, Option.some.injEq] at h
      subst h
      exact ⟨by simp [hac], fun i hi => absurd hi (Nat.not_lt_zero _)⟩
    · simp only [strchr, if_neg hac, Option.map_eq_some'] at h
      obtain ⟨q, hq, rfl⟩ := h
      obtain ⟨h1, h2⟩ := ih q hq
      refine ⟨by simpa using h1, ?_⟩
      intro i hi
      cases i with
      | zero => simpa using hac
      | succ j => simpa using h2 j (by omega)

theorem strchr_none (c : Nat) (s : List Nat) : strchr s c = none → c ∉ s := by
  induction s with
  | nil => intro _; simp
  | cons a as ih =>
    intro h
    by_cases hac : a = c
    · simp [strchr, hac] at h
    · simp only [strchr, if_neg hac, Option.map_eq_none'] at h
      simp only [List.mem_cons, not_or]
      exact ⟨fun hc => hac hc.symm, ih h⟩

theorem strncmp_zero (n : Nat) :
    ∀ (s t : List Nat), strncmp s t n = 0 →
      ∀ i, i < n → i < s.length → i < t.length → s[i]? = t[i]? := by
  induction n with
  | zero => intro s t _ i hi; omega
  | succ n ih =>
    intro s t h i hi hs ht
    match s, t with
    | [], _ => simp at hs
    | _ :: _, [] => simp at ht
    | a :: as, b :: bs =>
      by_cases hab : a = b
      · simp only [strncmp, if_pos hab] at h
        cases i with
        | zero => simp [hab]
        | succ j =>
          simp only [List.getElem?_cons_succ]
          exact ih as bs h j (by omega) (by simpa using hs) (by simpa using ht)
      · simp only [strncmp, if_neg hab] at h
        omega

theorem capHead_length : capHead.length = 17 := rfl

/-- The check of the loop of RPCIDEncode passes only on entries that begin with
the 17 bytes of "SystemCapability.". -/
theorem headCheck_sound (s : List Nat) (p : Nat) (hp : strchr s 46 = some p)
    (hc : strncmp s capHead (p + 1) = 0) : p = 16 ∧ s.take 17 = capHead := by
  obtain ⟨h1, h2⟩ := strchr_some 46 s p hp
  have hlt : p < s.length := by
    by_contra hge
    rw [List.getElem?_eq_none (by omega)] at h1
    exact absurd h1 (by simp)
  have key := strncmp_zero (p + 1) s capHead hc
  have hp16 : p = 16 := by
    by_cases hle : p ≤ 16
    · have h3 := key p (by omega) hlt (by rw [capHead_length]; omega)
      rw [h1] at h3
      interval_cases p <;> first | rfl | (simp [capHead] at h3)
    · have h3 := key 16 (by omega) (by omega) (by rw [capHead_length]; omega)
      have h4 : capHead[16]? = some 46 := rfl
      rw [h4] at h3
      exact absurd h3 (h2 16 (by omega))
  subst hp16
  refine ⟨rfl, ?_⟩
  apply List.ext_getElem?
  intro i
  by_cases hi : i < 17
  · rw [List.getElem?_take_of_lt hi]
    exact key i (by omega) (by omega) (by rw [capHead_length]; omega)
  · rw [List.getElem?_eq_none (by simp; omega), List.getElem?_eq_none (by rw [capHead_length]; omega)]

theorem headCheck_iff (s : List Nat) :
    (∃ p, strchr s 46 = some p ∧ strncmp s capHead (p + 1) = 0) ↔ capHead <+: s := by
  constructor
  · rintro ⟨p, hp, hc⟩
    obtain ⟨_, h⟩ := headCheck_sound s p hp hc
    rw [List.prefix_iff_eq_take, capHead_length, h]
  · rintro ⟨suf, rfl⟩
    exact ⟨16, strchr_capHead suf, strncmp_capHead suf⟩


theorem load16_head0 (u len : Nat) (rest : List Nat) :
    load16 (headBytes u len ++ rest) 0 = some (u / 256 % 256 + 256 * (128 + u % 128)) := by
  simp only [headBytes, load16, List.cons_append, List.getElem?_cons_zero, List.getElem?_cons_succ,
    Nat.zero_add]
  congr 1
  omega

theorem load16_head2 (u len : Nat) (rest : List Nat) :
    load16 (headBytes u len ++ rest) 2 = some 512 := by
  simp [headBytes, load16]

theorem load16_head4 (u len : Nat) (rest : List Nat) :
    load16 (headBytes u len ++ rest) 4 = some (len / 256 % 256 + 256 * (len % 256)) := by
  simp only [headBytes, load16, List.cons_append, List.getElem?_cons_zero, List.getElem?_cons_succ,
    Nat.zero_add]
  congr 1
  omega

theorem getApiVersionType_head (u : Nat) :
    getApiVersionType (u / 256 % 256 + 256 * (128 + u % 128)) = 1 := by
  have h : ∀ v : Nat, 32768 ≤ v → v < 65536 → v / 32768 % 2 = 1 := by
    intro v h1 h2; omega
  exact h _ (by omega) (by omega)

theorem NtohsInter_lenWord (len : Nat) :
    NtohsInter (len / 256 % 256 + 256 * (len % 256)) = len % 65536 := by
  unfold NtohsInter
  have h1 : (len / 256 % 256 + 256 * (len % 256)) % 256 = len / 256 % 256 := by omega
  have h2 : (len / 256 % 256 + 256 * (len % 256)) / 256 = len % 256 := by omega
  rw [h1, h2]; omega

theorem NtohsInter_version (u : Nat) :
    NtohsInter (getApiVersion (u / 256 % 256 + 256 * (128 + u % 128))) =
      256 * (u / 256 % 256) + u % 128 := by
  unfold NtohsInter getApiVersion
  have h0 : (u / 256 % 256 + 256 * (128 + u % 128)) % 32768 = u / 256 % 256 + 256 * (u % 128) := by
    omega
  have h1 : (u / 256 % 256 + 256 * (u % 128)) % 256 = u / 256 % 256 := by omega
  have h2 : (u / 256 % 256 + 256 * (u % 128)) / 256 = u % 128 := by omega
  rw [h0, h1, h2]; omega

theorem flatten_slots_length (sufs : List (List Nat)) (hl : ∀ suf ∈ sufs, suf.length ≤ 128) :
    ((sufs.map slotOf).flatten).length = 128 * sufs.length := by
  induction sufs with
  | nil => rfl
  | cons a as ih =>
    have ha := slotOf_length a (hl a (List.mem_cons_self _ _))
    have hr := ih (fun s hs => hl s (List.mem_cons_of_mem _ hs))
    simp only [List.map_cons, List.flatten_cons, List.length_append, ha, hr, List.length_cons]
    omega

/-- The length of the file that RPCIDEncode writes for the name suffixes sufs. -/
theorem encoded_length (u len : Nat) (sufs : List (List Nat))
    (hl : ∀ suf ∈ sufs, suf.length ≤ 128) :
    (headBytes u len ++ (sufs.map slotOf).flatten).length = 6 + 128 * sufs.length := by
  rw [List.length_append, flatten_slots_length _ hl, headBytes_length]

theorem checkRpcidBuffer_head (u len bufferLen : Nat) (rest : List Nat) (h8 : 8 ≤ bufferLen)
    (hfit : 6 + len % 65536 ≤ bufferLen) :
    checkRpcidBuffer (headBytes u len ++ rest) bufferLen = .ok () := by
  have h2 : ¬ (bufferLen < 2 * 4) := by omega
  have h3 : ¬ (bufferLen < 6 + len % 65536) := by omega
  have h4 : NtohsInter 512 = 2 := by decide
  unfold checkRpcidBuffer
  rw [if_neg h2, load16_head0]
  simp only [getApiVersionType_head, ne_eq, not_true_eq_false, if_false, sizeofRPCIDHead,
    Nat.reduceAdd, load16_head2, h4, load16_head4, NtohsInter_lenWord, if_neg h3]

theorem CheckRpcidFormat_encoded (u : Nat) (sufs : List (List Nat)) (hne : sufs ≠ [])
    (hn : sufs.length < 33554432) (hl : ∀ suf ∈ sufs, suf.length ≤ 128) :
    CheckRpcidFormat (headBytes u (128 * sufs.length % 65536) ++ (sufs.map slotOf).flatten) =
      .ok (headBytes u (128 * sufs.length % 65536) ++ (sufs.map slotOf).flatten ++ [0],
        7 + 128 * sufs.length) := by
  have hlen := encoded_length u (128 * sufs.length % 65536) sufs hl
  have hpos : 0 < sufs.length := List.length_pos.mpr hne
  have h0 : ¬ (headBytes u (128 * sufs.length % 65536) ++ (sufs.map slotOf).flatten).length = 0 := by
    rw [hlen]; omega
  have h1 : toU32 (6 + 128 * sufs.length + 1) = 7 + 128 * sufs.length := by
    rw [toU32_small _ (by omega)]; omega
  have hg : GetFileContext (headBytes u (128 * sufs.length % 65536) ++ (sufs.map slotOf).flatten)
      = some (headBytes u (128 * sufs.length % 65536) ++ (sufs.map slotOf).flatten ++ [0],
        7 + 128 * sufs.length) := by
    unfold GetFileContext
    rw [if_neg h0, hlen, h1]
  unfold CheckRpcidFormat
  rw [hg]
  simp only [List.append_assoc]
  rw [checkRpcidBuffer_head _ _ _ _ (by omega) (by omega)]


theorem ParseRpcidToJson_encoded (u inputLen : Nat) (sufs : List (List Nat))
    (hn : sufs.length ≤ 511) (hl : ∀ suf ∈ sufs, suf.length < 128 ∧ ∀ b ∈ suf, b ≠ 0) :
    ParseRpcidToJson
        (headBytes u (128 * sufs.length % 65536) ++ (sufs.map slotOf).flatten ++ [0]) inputLen =
      .ok { api_version := some ((256 * (u / 256 % 256) + u % 128 : Nat) : Int),
            syscap := some (sufs.map (capHead ++ ·)) } := by
  have hcount : 128 * sufs.length % 65536 % 65536 / SINGLE_FEAT_LENGTH = sufs.length := by
    simp only [SINGLE_FEAT_LENGTH]; omega
  have hloop := parseLoop_slots (headBytes u (128 * sufs.length % 65536)) [0] (sizeofRPCIDHead + 4)
    rfl sufs [] 0 [] rfl hl
  simp only [List.nil_append] at hloop
  unfold ParseRpcidToJson
  simp only [List.append_assoc, load16_head4, NtohsInter_lenWord, hcount, hloop, load16_head0,
    NtohsInter_version]

/-- C1 (as amended): for every descriptor whose api_version lies in 0..32767 and has
bit 7 clear, and whose syscap array is a non-empty list of at most 511 strings
"SystemCapability." + suffix, each suffix a string shorter than 128 bytes,
RPCIDEncode succeeds and writes a file that CheckRpcidFormat accepts and that
ParseRpcidToJson decodes to the same api_version and the same syscap list in the
same order. -/
theorem roundtrip_encode_decode (v : Int) (names : List (List Nat))
    (hv : 0 ≤ v ∧ v < 32768) (hbit : v % 256 < 128)
    (hne : names ≠ []) (hcount : names.length ≤ 511)
    (hnames : ∀ s ∈ names, ∃ suf, s = capHead ++ suf ∧ suf.length < 128 ∧ ∀ b ∈ suf, b ≠ 0) :
    ∃ file contextBuffer bufferLen,
      RPCIDEncode { api_version := some v, syscap := some names } = .exit 0 (some file) ∧
      CheckRpcidFormat file = .ok (contextBuffer, bufferLen) ∧
      ParseRpcidToJson contextBuffer bufferLen =
        .ok { api_version := some v, syscap := some names } := by
  have hmap : names = (names.map (List.drop 17)).map (capHead ++ ·) := by
    rw [List.map_map]
    conv_lhs => rw [← List.map_id names]
    apply List.map_congr_left
    intro s hs
    obtain ⟨suf, rfl, _⟩ := hnames s hs
    simp [capHead]
  have hsuf : ∀ suf ∈ names.map (List.drop 17), suf.length < 128 ∧ ∀ b ∈ suf, b ≠ 0 := by
    intro suf hmem
    obtain ⟨s, hs, rfl⟩ := List.mem_map.mp hmem
    obtain ⟨suf, rfl, h1, h2⟩ := hnames s hs
    have : List.drop 17 (capHead ++ suf) = suf := by simp [capHead]
    rw [this]; exact ⟨h1, h2⟩
  have hsufle : ∀ suf ∈ names.map (List.drop 17), suf.length ≤ 128 :=
    fun suf h => Nat.le_of_lt (hsuf suf h).1
  have hlen : (names.map (List.drop 17)).length = names.length := List.length_map _ _
  have hne2 : names.map (List.drop 17) ≠ [] := by
    intro h; exact hne (List.map_eq_nil_iff.mp h)
  have henc := RPCIDEncode_wellformed v (names.map (List.drop 17)) (by omega) hsufle
  have hchk := CheckRpcidFormat_encoded (toU16 v) (names.map (List.drop 17)) hne2 (by omega) hsufle
  have hdec := ParseRpcidToJson_encoded (toU16 v) (7 + 128 * (names.map (List.drop 17)).length)
    (names.map (List.drop 17)) (by omega) hsuf
  have hver : ((256 * (toU16 v / 256 % 256) + toU16 v % 128 : Nat) : Int) = v := by
    unfold toU16; omega
  rw [← hmap] at henc hdec
  rw [hver] at hdec
  exact ⟨_, _, _, henc, hchk, hdec⟩

/-- Witness of roundtrip_encode_decode: api_version 9 and the single name
"SystemCapability.Communication.WiFi". -/
theorem roundtrip_encode_decode_witness :
    ∃ file contextBuffer bufferLen,
      RPCIDEncode { api_version := some 9,
                    syscap := some [ascii "SystemCapability.Communication.WiFi"] }
        = .exit 0 (some file) ∧
      CheckRpcidFormat file = .ok (contextBuffer, bufferLen) ∧
      ParseRpcidToJson contextBuffer bufferLen =
        .ok { api_version := some 9,
              syscap := some [ascii "SystemCapability.Communication.WiFi"] } :=
  roundtrip_encode_decode 9 [ascii "SystemCapability.Communication.WiFi"]
    (by decide) (by decide) (by decide) (by decide)
    (by
      intro s hs
      rw [List.mem_singleton] at hs
      subst hs
      exact ⟨ascii "Communication.WiFi", by decide, by decide, by decide⟩)

/-- C1 (counterexample): the descriptor with api_version 9 and the empty syscap array
is encoded into the six bytes 00 89 00 02 00 00, and CheckRpcidFormat rejects that
file. -/
theorem roundtrip_fails_on_empty_syscap :
    RPCIDEncode { api_version := some 9, syscap := some [] }
      = .exit 0 (some [0, 137, 0, 2, 0, 0]) ∧
    CheckRpcidFormat [0, 137, 0, 2, 0, 0] = .fail (-1) := by
  decide


theorem load16_eq (mem : List Nat) (off : Nat) (h : off + 1 < mem.length) :
    load16 mem off = some (mem.getD off 0 % 256 + 256 * (mem.getD (off + 1) 0 % 256)) := by
  unfold load16
  rw [List.getElem?_eq_getElem (by omega), List.getElem?_eq_getElem h]
  simp only [List.getD_eq_getElem?_getD, List.getElem?_eq_getElem (show off < mem.length by omega),
    List.getElem?_eq_getElem h, Option.getD_some]

theorem load16_isSome (mem : List Nat) (off : Nat) (w : Nat) (h : load16 mem off = some w) :
    off + 1 < mem.length := by
  unfold load16 at h
  by_contra hge
  have h1 : mem[off + 1]? = none := List.getElem?_eq_none (by omega)
  rw [h1] at h
  cases hm : mem[off]? <;> simp [hm] at h

theorem checkRpcidBuffer_ok_iff (contextBuffer : List Nat) (bufferLen : Nat) :
    checkRpcidBuffer contextBuffer bufferLen = .ok () ↔
      8 ≤ bufferLen ∧ ∃ w0 w1 w2, load16 contextBuffer 0 = some w0 ∧ getApiVersionType w0 = 1 ∧
        load16 contextBuffer 2 = some w1 ∧ NtohsInter w1 = 2 ∧
        load16 contextBuffer 4 = some w2 ∧ 6 + NtohsInter w2 ≤ bufferLen := by
  unfold checkRpcidBuffer
  simp only [sizeofRPCIDHead, Nat.reduceAdd, Nat.reduceMul]
  constructor
  · intro h
    split at h
    · exact absurd h (by simp)
    · split at h
      · exact absurd h (by simp)
      · rename_i w0 hw0
        split at h
        · exact absurd h (by simp)
        · split at h
          · exact absurd h (by simp)
          · rename_i w1 hw1
            split at h
            · exact absurd h (by simp)
            · split at h
              · exact absurd h (by simp)
              · rename_i w2 hw2
                split at h
                · exact absurd h (by simp)
                · refine ⟨by omega, w0, w1, w2, hw0, by omega, hw1, by omega, hw2, by omega⟩
  · rintro ⟨h8, w0, w1, w2, hw0, ht, hw1, h2, hw2, hfit⟩
    rw [if_neg (by omega), hw0]
    simp only [ht, ne_eq, not_true_eq_false, if_false, hw1, h2, hw2]
    rw [if_neg (by omega)]

theorem checkRpcidBuffer_no_fault (contextBuffer : List Nat) (bufferLen : Nat)
    (hlen : bufferLen ≤ contextBuffer.length) :
    checkRpcidBuffer contextBuffer bufferLen = .ok () ∨
      checkRpcidBuffer contextBuffer bufferLen = .fail (-1) := by
  unfold checkRpcidBuffer
  simp only [sizeofRPCIDHead, Nat.reduceAdd, Nat.reduceMul]
  by_cases h8 : bufferLen < 8
  · right; rw [if_pos h8]
  · rw [if_neg h8, load16_eq _ 0 (by omega), load16_eq _ 2 (by omega), load16_eq _ 4 (by omega)]
    simp only []
    split
    · right; rfl
    · split
      · right; rfl
      · split
        · right; rfl
        · left; rfl


theorem NtohsInter_bytes (lo hi : Nat) (h1 : lo < 256) (h2 : hi < 256) :
    NtohsInter (lo % 256 + 256 * (hi % 256)) = 256 * lo + hi := by
  unfold NtohsInter
  have e1 : (lo % 256 + 256 * (hi % 256)) % 256 = lo := by omega
  have e2 : (lo % 256 + 256 * (hi % 256)) / 256 = hi := by omega
  rw [e1, e2]; omega

theorem getD_lt (mem : List Nat) (hbytes : ∀ b ∈ mem, b < 256) (i : Nat) : mem.getD i 0 < 256 := by
  by_cases hi : i < mem.length
  · rw [List.getD_eq_getElem _ _ hi]
    exact hbytes _ (List.getElem_mem _)
  · rw [List.getD_eq_default _ _ (by omega)]; norm_num

/-- C2: on a buffer of bytes that holds at least the given length, the checks of
CheckRpcidFormat accept if and only if the length is at least 8, the apiVersionType
bit of the first 16-bit header word is 1, the capabilitySetType field at offset 2
read in network byte order is 2, and 6 plus the capabilitySetByteLength field at
offset 4 read in network byte order is at most the length; in every other case
(a length below 8, apiVersionType 0, a declared length past the given one among
them) the checks reject with status -1. On the little-endian host the
apiVersionType bit is the top bit of the byte at offset 1. -/
theorem checkRpcidFormat_accepts_iff (contextBuffer : List Nat) (bufferLen : Nat)
    (hlen : bufferLen ≤ contextBuffer.length) (hbytes : ∀ b ∈ contextBuffer, b < 256) :
    (checkRpcidBuffer contextBuffer bufferLen = .ok () ↔
      8 ≤ bufferLen ∧ apiVersionTypeBit contextBuffer = 1 ∧ be16At contextBuffer 2 = 2 ∧
        6 + be16At contextBuffer 4 ≤ bufferLen) ∧
    (bufferLen < 8 → checkRpcidBuffer contextBuffer bufferLen = .fail (-1)) ∧
    (apiVersionTypeBit contextBuffer = 0 →
      checkRpcidBuffer contextBuffer bufferLen = .fail (-1)) ∧
    (bufferLen < 6 + be16At contextBuffer 4 →
      checkRpcidBuffer contextBuffer bufferLen = .fail (-1)) ∧
    (apiVersionTypeBit contextBuffer = 1 ↔ 128 ≤ contextBuffer.getD 1 0) := by
  have hiff : checkRpcidBuffer contextBuffer bufferLen = .ok () ↔
      8 ≤ bufferLen ∧ apiVersionTypeBit contextBuffer = 1 ∧ be16At contextBuffer 2 = 2 ∧
        6 + be16At contextBuffer 4 ≤ bufferLen := by
    rw [checkRpcidBuffer_ok_iff]
    constructor
    · rintro ⟨h8, w0, w1, w2, hw0, ht, hw1, h2, hw2, hfit⟩
      rw [load16_eq _ _ (by omega)] at hw0 hw1 hw2
      simp only [Option.some.injEq] at hw0 hw1 hw2
      subst hw0 hw1 hw2
      rw [NtohsInter_bytes _ _ (getD_lt _ hbytes _) (getD_lt _ hbytes _)] at h2 hfit
      rw [Nat.mod_eq_of_lt (getD_lt _ hbytes _), Nat.mod_eq_of_lt (getD_lt _ hbytes _)] at ht
      exact ⟨h8, ht, h2, hfit⟩
    · rintro ⟨h8, ht, h2, hfit⟩
      refine ⟨h8, _, _, _, load16_eq _ 0 (by omega), ?_, load16_eq _ 2 (by omega), ?_,
        load16_eq _ 4 (by omega), ?_⟩
      · rw [Nat.mod_eq_of_lt (getD_lt _ hbytes _), Nat.mod_eq_of_lt (getD_lt _ hbytes _)]
        exact ht
      · rw [NtohsInter_bytes _ _ (getD_lt _ hbytes _) (getD_lt _ hbytes _)]; exact h2
      · rw [NtohsInter_bytes _ _ (getD_lt _ hbytes _) (getD_lt _ hbytes _)]; exact hfit
  have hrej : ∀ {P : Prop}, (checkRpcidBuffer contextBuffer bufferLen = .ok () → ¬ P) → P →
      checkRpcidBuffer contextBuffer bufferLen = .fail (-1) := by
    intro P hP hp
    rcases checkRpcidBuffer_no_fault contextBuffer bufferLen hlen with h | h
    · exact absurd hp (hP h)
    · exact h
  refine ⟨hiff, hrej (fun h => ?_), hrej (fun h => ?_), hrej (fun h => ?_), ?_⟩
  · have := (hiff.mp h).1; omega
  · have := (hiff.mp h).2.1; omega
  · have := (hiff.mp h).2.2.2; omega
  · have h0 := getD_lt contextBuffer hbytes 0
    have h1 := getD_lt contextBuffer hbytes 1
    unfold apiVersionTypeBit getApiVersionType
    omega

/-- Witness of checkRpcidFormat_accepts_iff: the nine-byte buffer of a record that
declares one byte of capability names is accepted with the length 8. -/
theorem checkRpcidFormat_accepts_iff_witness :
    (8 ≤ [0, 137, 0, 2, 0, 1, 65, 0, 0].length ∧ ∀ b ∈ [0, 137, 0, 2, 0, 1, 65, 0, 0], b < 256) ∧
    checkRpcidBuffer [0, 137, 0, 2, 0, 1, 65, 0, 0] 8 = .ok () :=
  ⟨⟨by decide, by decide⟩,
    (checkRpcidFormat_accepts_iff [0, 137, 0, 2, 0, 1, 65, 0, 0] 8 (by decide) (by decide)).1.mpr
      (by decide)⟩


theorem strlenFrom_terminated (xs : List Nat) :
    ∃ n, strlenFrom (xs ++ [0]) = some n ∧ n ≤ xs.length := by
  induction xs with
  | nil => exact ⟨0, by simp [strlenFrom], le_refl _⟩
  | cons a as ih =>
    obtain ⟨n, hn, hle⟩ := ih
    by_cases ha : a = 0
    · exact ⟨0, by simp [strlenFrom, ha], Nat.zero_le _⟩
    · exact ⟨n + 1, by simp [strlenFrom, ha, hn], by simp only [List.length_cons]; omega⟩

theorem strlen_terminated (file : List Nat) (p : Nat) (hp : p ≤ file.length) :
    ∃ n, strlen (file ++ [0]) p = some n ∧ p + n ≤ file.length := by
  unfold strlen
  rw [List.drop_append_of_le_length hp]
  obtain ⟨n, hn, hle⟩ := strlenFrom_terminated (file.drop p)
  refine ⟨n, hn, ?_⟩
  rw [List.length_drop] at hle
  omega

theorem parseLoop_no_fault (file : List Nat) :
    ∀ (remaining i : Nat) (acc : List (List Nat)),
      6 + (i + remaining) * 128 ≤ file.length + 1 →
      parseLoop (file ++ [0]) 6 i remaining acc ≠ .fault := by
  intro remaining
  induction remaining with
  | zero => intro i acc _; simp [parseLoop]
  | succ k ih =>
    intro i acc hfit
    obtain ⟨n, hn, _⟩ := strlen_terminated file (6 + i * SINGLE_FEAT_LENGTH)
      (by simp only [SINGLE_FEAT_LENGTH]; omega)
    simp only [parseLoop, hn]
    split
    · simp
    · split
      · simp
      · exact ih (i + 1) _ (by omega)

theorem CheckRpcidFormat_ok_inv (inputFile contextBuffer : List Nat) (bufferLen : Nat)
    (h : CheckRpcidFormat inputFile = .ok (contextBuffer, bufferLen)) :
    contextBuffer = inputFile ++ [0] ∧ bufferLen ≤ inputFile.length + 1 ∧
      checkRpcidBuffer contextBuffer bufferLen = .ok () := by
  unfold CheckRpcidFormat GetFileContext at h
  split at h
  · exact absurd h (by simp)
  · rename_i buf len hg
    split at hg
    · exact absurd hg (by simp)
    · simp only [Option.some.injEq, Prod.mk.injEq] at hg
      obtain ⟨rfl, rfl⟩ := hg
      split at h
      · exact absurd h (by simp)
      · exact absurd h (by simp)
      · rename_i u hc
        simp only [Res.ok.injEq, Prod.mk.injEq] at h
        obtain ⟨rfl, rfl⟩ := h
        refine ⟨rfl, ?_, hc⟩
        unfold toU32
        exact Nat.mod_le _ _

/-- C3: on the buffer and length that CheckRpcidFormat accepted, ParseRpcidToJson
reads inside the buffer only: it does not fault, the length field at offsets 4..5
is inside, and for every slot index i below capabilitySetByteLength / 128 the scan
from offset 6 + 128 i finds its terminating NUL at an offset inside the buffer. -/
theorem decoder_reads_inside_buffer (inputFile contextBuffer : List Nat) (bufferLen : Nat)
    (h : CheckRpcidFormat inputFile = .ok (contextBuffer, bufferLen)) :
    ParseRpcidToJson contextBuffer bufferLen ≠ .fault ∧
    ∃ w2, load16 contextBuffer 4 = some w2 ∧ 5 < contextBuffer.length ∧
      ∀ i, i < NtohsInter w2 / SINGLE_FEAT_LENGTH →
        ∃ len, strlen contextBuffer (6 + i * SINGLE_FEAT_LENGTH) = some len ∧
          6 + i * SINGLE_FEAT_LENGTH + len < contextBuffer.length := by
  obtain ⟨rfl, hle, hc⟩ := CheckRpcidFormat_ok_inv _ _ _ h
  obtain ⟨h8, w0, w1, w2, hw0, _, _, _, hw2, hfit⟩ := (checkRpcidBuffer_ok_iff _ _).mp hc
  have hcount : 6 + NtohsInter w2 / SINGLE_FEAT_LENGTH * 128 ≤ inputFile.length + 1 := by
    simp only [SINGLE_FEAT_LENGTH]; omega
  refine ⟨?_, w2, hw2, by simp only [List.length_append, List.length_singleton]; omega, ?_⟩
  · unfold ParseRpcidToJson
    simp only [hw2, hw0, sizeofRPCIDHead, Nat.reduceAdd]
    have hnf := parseLoop_no_fault inputFile (NtohsInter w2 / SINGLE_FEAT_LENGTH) 0 []
      (by simpa using hcount)
    split
    · rename_i hf; exact absurd hf hnf
    · simp
    · simp
  · intro i hi
    obtain ⟨n, hn, hle2⟩ := strlen_terminated inputFile (6 + i * SINGLE_FEAT_LENGTH)
      (by simp only [SINGLE_FEAT_LENGTH] at hi ⊢; omega)
    exact ⟨n, hn, by simp only [List.length_append, List.length_singleton]; omega⟩

set_option maxRecDepth 100000 in
/-- Witness of decoder_reads_inside_buffer: a 135-byte file of one slot that holds
no NUL at all; the scan ends at the NUL that GetFileContext appended. -/
theorem decoder_reads_inside_buffer_witness :
    CheckRpcidFormat ([0, 137, 0, 2, 0, 128] ++ List.replicate 129 65) =
      .ok ([0, 137, 0, 2, 0, 128] ++ List.replicate 129 65 ++ [0], 136) ∧
    ParseRpcidToJson ([0, 137, 0, 2, 0, 128] ++ List.replicate 129 65 ++ [0]) 136 ≠ .fault :=
  ⟨by decide, (decoder_reads_inside_buffer ([0, 137, 0, 2, 0, 128] ++ List.replicate 129 65)
    ([0, 137, 0, 2, 0, 128] ++ List.replicate 129 65 ++ [0]) 136 (by decide)).1⟩


theorem writeAt_length (mem : List Nat) (off : Nat) (src out : List Nat)
    (h : writeAt mem off src = some out) : out.length = mem.length ∧ off + src.length ≤ mem.length := by
  unfold writeAt at h
  split at h
  · rename_i hle
    simp only [Option.some.injEq] at h
    subst h
    refine ⟨?_, hle⟩
    simp only [List.length_append, List.length_take, List.length_drop]
    omega
  · exact absurd h (by simp)

theorem encodeLoop_ok_inv (l : List (List Nat)) :
    ∀ (off : Nat) (buf out : List Nat), encodeLoop l off buf = .ok out →
      (∀ s ∈ l, ∃ suf, s = capHead ++ suf ∧ suf.length ≤ 128) ∧ out.length = buf.length ∧
        (l ≠ [] → off + 128 * (l.length - 1) ≤ buf.length) := by
  induction l with
  | nil =>
    intro off buf out h
    simp only [encodeLoop, Res.ok.injEq] at h
    subst h
    exact ⟨by simp, rfl, by simp⟩
  | cons s rest ih =>
    intro off buf out h
    unfold encodeLoop at h
    split at h
    · exact absurd h (by simp)
    · rename_i p hp
      split at h
      · exact absurd h (by simp)
      · rename_i hc
        simp only [ne_eq, not_not] at hc
        obtain ⟨hp16, htake⟩ := headCheck_sound s p hp hc
        subst hp16
        have hs : s = capHead ++ s.drop 17 := by
          conv_lhs => rw [← List.take_append_drop 17 s, htake]
        split at h
        · exact absurd h (by simp)
        · rename_i ret buf1 hm
          split at h
          · exact absurd h (by simp)
          · rename_i hret
            simp only [ne_eq, not_not] at hret
            unfold memcpy_s at hm
            split at hm
            · rename_i hle
              simp only [Option.map_eq_some', Prod.mk.injEq] at hm
              obtain ⟨m, hw, _, rfl⟩ := hm
              obtain ⟨hlen1, hfit⟩ := writeAt_length _ _ _ _ hw
              obtain ⟨h1, h2, h3⟩ := ih _ _ _ h
              simp only [SINGLE_FEAT_LENGTH, Nat.reduceAdd] at hle h3 hfit
              refine ⟨?_, by rw [h2, hlen1], ?_⟩
              · intro t ht
                rcases List.mem_cons.mp ht with rfl | ht
                · exact ⟨_, hs, hle⟩
                · exact h1 t ht
              · intro _
                by_cases hr : rest = []
                · subst hr; simp only [List.length_cons, List.length_nil]; omega
                · have := h3 hr
                  have hpos : 0 < rest.length := List.length_pos.mpr hr
                  simp only [List.length_cons]; omega
            · simp only [Option.map_eq_some', Prod.mk.injEq] at hm
              obtain ⟨m, _, hr, _⟩ := hm
              rw [← hr] at hret
              exact absurd hret (by decide)

theorem store16_length (mem : List Nat) (off v : Nat) (out : List Nat)
    (h : store16 mem off v = some out) : out.length = mem.length :=
  (writeAt_length _ _ _ _ h).1

theorem encodeHead_length (buf : List Nat) (v : Int) (n : Nat) (out : List Nat)
    (h : encodeHead buf v n = some out) : out.length = buf.length := by
  unfold encodeHead at h
  split at h
  · exact absurd h (by simp)
  · split at h
    · exact absurd h (by simp)
    · rename_i b1 h1
      split at h
      · exact absurd h (by simp)
      · split at h
        · exact absurd h (by simp)
        · rename_i b2 h2
          split at h
          · exact absurd h (by simp)
          · rename_i b3 h3
            rw [store16_length _ _ _ _ h, store16_length _ _ _ _ h3, store16_length _ _ _ _ h2,
              store16_length _ _ _ _ h1]

/-- Success of RPCIDEncode determines the descriptor's shape and the file. -/
theorem RPCIDEncode_ok_inv (root : Json) (l : List (List Nat)) (file : List Nat)
    (hl : root.syscap = some l) (hint : l.length < 2147483648)
    (h : RPCIDEncode root = .exit 0 (some file)) :
    ∃ (v : Int) (sufs : List (List Nat)), root.api_version = some v ∧
      l = sufs.map (capHead ++ ·) ∧
      (∀ suf ∈ sufs, suf.length ≤ 128) ∧ sufs.length < 33554432 ∧
      file = headBytes (toU16 v) (128 * sufs.length % 65536) ++ (sufs.map slotOf).flatten := by
  obtain ⟨av, sc⟩ := root
  simp only at hl
  subst hl
  have h1 : toInt32 l.length = (l.length : Int) := toInt32_small _ hint
  have h5 : ¬ ((l.length : Int) < 0) := by omega
  cases av with
  | none =>
    simp only [RPCIDEncode, h1, if_neg h5] at h
    exact absurd h (by simp)
  | some v =>
    simp only [RPCIDEncode, h1, if_neg h5, Int.toNat_ofNat, List.take_length] at h
    split at h
    · exact absurd h (by simp)
    · rename_i filled hfill
      have hflen := encodeHead_length _ _ _ _ hfill
      rw [List.length_replicate] at hflen
      split at h
      · exact absurd h (by simp)
      · exact absurd h (by simp)
      · rename_i out hloop
        obtain ⟨hw, _, hfit⟩ := encodeLoop_ok_inv _ _ _ _ hloop
        have hn : l.length < 33554432 := by
          by_contra hge
          have hne : l ≠ [] := by
            intro h0; subst h0; simp at hge
          have := hfit hne
          rw [hflen] at this
          simp only [toU32, sizeofRPCIDHead, SINGLE_FEAT_LENGTH] at this
          omega
        have hmap : l = (l.map (List.drop 17)).map (capHead ++ ·) := by
          rw [List.map_map]
          conv_lhs => rw [← List.map_id l]
          apply List.map_congr_left
          intro s hs
          obtain ⟨suf, rfl, _⟩ := hw s hs
          simp [capHead]
        have hsuf : ∀ suf ∈ l.map (List.drop 17), suf.length ≤ 128 := by
          intro suf hmem
          obtain ⟨s, hs, rfl⟩ := List.mem_map.mp hmem
          obtain ⟨suf, rfl, h1⟩ := hw s hs
          have : List.drop 17 (capHead ++ suf) = suf := by simp [capHead]
          rw [this]; exact h1
        refine ⟨v, l.map (List.drop 17), rfl, hmap, hsuf, by rw [List.length_map]; exact hn, ?_⟩
        have henc := RPCIDEncode_wellformed v (l.map (List.drop 17))
          (by rw [List.length_map]; exact hn) hsuf
        rw [← hmap] at henc
        simp only [RPCIDEncode, h1, if_neg h5, Int.toNat_ofNat, List.take_length, hfill, hloop]
          at henc
        simp only [Outcome.exit.injEq, Option.some.injEq, true_and] at h henc
        rw [← h, henc]


theorem writeAt_some (mem : List Nat) (off : Nat) (src : List Nat)
    (h : off + src.length ≤ mem.length) :
    ∃ out, writeAt mem off src = some out ∧ out.length = mem.length := by
  refine ⟨_, by unfold writeAt; rw [if_pos h], ?_⟩
  simp only [List.length_append, List.length_take, List.length_drop]
  omega

/-- The loop of RPCIDEncode, given a buffer with a slot for every entry, fails with
-1 when some entry is not "SystemCapability." followed by at most 128 bytes. -/
theorem encodeLoop_bad (l : List (List Nat)) :
    ∀ (off : Nat) (buf : List Nat), off + 128 * l.length ≤ buf.length →
      (∃ s ∈ l, ¬ ∃ suf, s = capHead ++ suf ∧ suf.length ≤ 128) →
      encodeLoop l off buf = .fail (-1) := by
  induction l with
  | nil => intro off buf _ h; obtain ⟨s, hs, _⟩ := h; simp at hs
  | cons s rest ih =>
    intro off buf hfit hbad
    simp only [List.length_cons] at hfit
    unfold encodeLoop
    cases hp : strchr s 46 with
    | none => rfl
    | some p =>
      simp only []
      by_cases hc : strncmp s capHead (p + 1) = 0
      · obtain ⟨hp16, htake⟩ := headCheck_sound s p hp hc
        subst hp16
        have hs : s = capHead ++ s.drop 17 := by
          conv_lhs => rw [← List.take_append_drop 17 s, htake]
        rw [if_neg (by simpa using hc)]
        unfold memcpy_s
        by_cases hle : (s.drop (16 + 1)).length ≤ SINGLE_FEAT_LENGTH
        · obtain ⟨out, hw, hlen⟩ := writeAt_some buf off (s.drop (16 + 1))
            (by simp only [SINGLE_FEAT_LENGTH] at hle; omega)
          rw [if_pos hle, hw]
          simp only [Option.map_some', EOK, ne_eq, not_true_eq_false, if_false]
          apply ih
          · rw [hlen]; simp only [SINGLE_FEAT_LENGTH]; omega
          · obtain ⟨t, ht, hbt⟩ := hbad
            rcases List.mem_cons.mp ht with rfl | ht
            · exact absurd ⟨_, hs, hle⟩ hbt
            · exact ⟨t, ht, hbt⟩
        · obtain ⟨out, hw, _⟩ := writeAt_some buf off (List.replicate SINGLE_FEAT_LENGTH 0)
            (by simp only [SINGLE_FEAT_LENGTH, List.length_replicate]; omega)
          rw [if_neg hle, hw]
          simp [ERANGE_AND_RESET]
      · rw [if_pos (by simpa using hc)]

theorem RPCIDEncode_bad (root : Json) (l : List (List Nat)) (hl : root.syscap = some l)
    (hn : l.length < 33554432)
    (hbad : ∃ s ∈ l, ¬ ∃ suf, s = capHead ++ suf ∧ suf.length ≤ 128) :
    RPCIDEncode root = .exit (-1) none := by
  obtain ⟨av, sc⟩ := root
  simp only at hl
  subst hl
  have h1 : toInt32 l.length = (l.length : Int) := toInt32_small _ (by omega)
  have h5 : ¬ ((l.length : Int) < 0) := by omega
  have h2 : toU32 (l.length * SINGLE_FEAT_LENGTH) = 128 * l.length := by
    rw [toU32_small _ (by simp only [SINGLE_FEAT_LENGTH]; omega)]; simp only [SINGLE_FEAT_LENGTH]; omega
  have h3 : toU32 (sizeofRPCIDHead + (2 * 2 + 128 * l.length)) = 6 + 128 * l.length := by
    rw [toU32_small _ (by simp only [sizeofRPCIDHead]; omega)]; simp only [sizeofRPCIDHead]; omega
  cases av with
  | none => simp only [RPCIDEncode, h1, if_neg h5]
  | some v =>
    have hloop := encodeLoop_bad l 6
      (headBytes (toU16 v) (toU16 ((toU32 (l.length * SINGLE_FEAT_LENGTH) : Nat) : Int)) ++
        List.replicate (128 * l.length) 0)
      (by rw [List.length_append, headBytes_length, List.length_replicate]) hbad
    simp only [RPCIDEncode, h1, if_neg h5, Int.toNat_ofNat, List.take_length, h2, h3,
      encodeHead_replicate, sizeofRPCIDHead, Nat.reduceAdd]
    rw [h2] at hloop
    rw [hloop]


theorem slotAt_encoded (u len : Nat) (sufs : List (List Nat))
    (hl : ∀ suf ∈ sufs, suf.length ≤ 128) :
    ∀ (i : Nat) (hi : i < sufs.length),
      slotAt (headBytes u len ++ (sufs.map slotOf).flatten) i = slotOf (sufs[i]) := by
  have hdrop : ∀ rest : List Nat, List.drop 6 (headBytes u len ++ rest) = rest := by
    intro rest; exact List.drop_left' (headBytes_length u len)
  induction sufs with
  | nil => intro i hi; simp at hi
  | cons a as ih =>
    intro i hi
    have ha := slotOf_length a (hl a (List.mem_cons_self _ _))
    have hr : ∀ s ∈ as, s.length ≤ 128 := fun s hs => hl s (List.mem_cons_of_mem _ hs)
    cases i with
    | zero =>
      simp only [slotAt, SINGLE_FEAT_LENGTH, Nat.mul_zero, Nat.add_zero, hdrop, List.map_cons,
        List.flatten_cons, List.getElem_cons_zero]
      exact List.take_left' ha
    | succ j =>
      have hj : j < as.length := by simpa using hi
      have := ih hr j hj
      simp only [slotAt, SINGLE_FEAT_LENGTH] at this ⊢
      rw [show 6 + 128 * (j + 1) = 6 + (128 + 128 * j) by omega, ← List.drop_drop, hdrop,
        List.map_cons, List.flatten_cons, ← List.drop_drop, List.drop_left' ha]
      rw [← List.drop_drop, hdrop] at this
      simpa using this

/-- C4 (as amended): for every descriptor with a non-empty syscap array (of fewer
than 2^31 entries, the sizes that cJSON_GetArraySize can report) on which
RPCIDEncode succeeds, the bytes written to rpcid.sc are accepted by
CheckRpcidFormat when read back, and every slot whose name suffix is shorter than
128 bytes holds a NUL among its 128 bytes. -/
theorem encoded_file_is_accepted (root : Json) (names : List (List Nat)) (file : List Nat)
    (hnames : root.syscap = some names) (hne : names ≠ [])
    (hint : names.length < 2147483648)
    (h : RPCIDEncode root = .exit 0 (some file)) :
    (∃ contextBuffer bufferLen, CheckRpcidFormat file = .ok (contextBuffer, bufferLen)) ∧
    ∀ (i : Nat) (hi : i < names.length), (names[i]).length < 17 + 128 → 0 ∈ slotAt file i := by
  obtain ⟨v, sufs, _, rfl, hl, hn, rfl⟩ := RPCIDEncode_ok_inv root names file hnames hint h
  have hne2 : sufs ≠ [] := by
    intro h0; exact hne (by rw [h0]; rfl)
  refine ⟨⟨_, _, CheckRpcidFormat_encoded (toU16 v) sufs hne2 hn hl⟩, ?_⟩
  intro i hi hlen
  have hi2 : i < sufs.length := by simpa using hi
  rw [slotAt_encoded _ _ _ hl i hi2]
  have hshort : (sufs[i]).length < 128 := by
    simp only [List.getElem_map, List.length_append, capHead_length] at hlen
    omega
  rw [slotOf_eq_cons _ hshort]
  simp

/-- Witness of encoded_file_is_accepted: the descriptor with api_version 9 and the
single name "SystemCapability.Communication.WiFi". -/
theorem encoded_file_is_accepted_witness :
    (∃ contextBuffer bufferLen,
      CheckRpcidFormat (headBytes 9 128 ++ slotOf (ascii "Communication.WiFi"))
        = .ok (contextBuffer, bufferLen)) ∧
    ∀ (i : Nat) (hi : i < [ascii "SystemCapability.Communication.WiFi"].length),
      ([ascii "SystemCapability.Communication.WiFi"][i]).length < 17 + 128 →
        0 ∈ slotAt (headBytes 9 128 ++ slotOf (ascii "Communication.WiFi")) i :=
  encoded_file_is_accepted
    { api_version := some 9, syscap := some [ascii "SystemCapability.Communication.WiFi"] }
    [ascii "SystemCapability.Communication.WiFi"]
    (headBytes 9 128 ++ slotOf (ascii "Communication.WiFi")) rfl (by decide) (by decide)
    (by
      have h := RPCIDEncode_wellformed 9 [ascii "Communication.WiFi"] (by decide) (by decide)
      simpa using h)

/-- C4 (counterexample): the descriptor with api_version 1 and the empty syscap array
is encoded without error into the six bytes 00 81 00 02 00 00, and CheckRpcidFormat
rejects that file. -/
theorem encoded_empty_syscap_is_rejected :
    RPCIDEncode { api_version := some 1, syscap := some [] }
      = .exit 0 (some [0, 129, 0, 2, 0, 0]) ∧
    CheckRpcidFormat [0, 129, 0, 2, 0, 0] = .fail (-1) := by
  decide


theorem RPCIDEncode_file_ret (root : Json) (ret : Int) (file : List Nat)
    (h : RPCIDEncode root = .exit ret (some file)) : ret = 0 := by
  unfold RPCIDEncode at h
  split at h
  · exact absurd h (by simp)
  · simp only [] at h
    split at h
    · exact absurd h (by simp)
    · split at h
      · exact absurd h (by simp)
      · split at h
        · exact absurd h (by simp)
        · split at h
          · exact absurd h (by simp)
          · exact absurd h (by simp)
          · simp only [Outcome.exit.injEq] at h
            exact h.1.symm

/-- C6: the check that the loop of RPCIDEncode makes on an entry (the first '.' is
found and strncmp against "SystemCapability." over the text up to and including it
gives 0) passes if and only if the entry begins with the 17 bytes
"SystemCapability."; an entry with no '.', or whose text up to and including its
first '.' differs from "SystemCapability.", does not begin with them; and a
descriptor with such an entry in a syscap array of fewer than 2^25 entries (so that
the 32-bit buffer size does not wrap) makes RPCIDEncode return -1 without writing
rpcid.sc, and rpcid.sc is written for no array size below 2^31, the sizes that
cJSON_GetArraySize can report; on a single entry of at most 17 + 128 bytes
RPCIDEncode succeeds if and only if the entry begins with "SystemCapability.". -/
theorem encoder_head_check :
    (∀ s : List Nat,
      (∃ p, strchr s 46 = some p ∧ strncmp s capHead (p + 1) = 0) ↔ capHead <+: s) ∧
    (∀ s : List Nat,
      (strchr s 46 = none ∨ ∃ p, strchr s 46 = some p ∧ s.take (p + 1) ≠ capHead) →
        ¬ capHead <+: s) ∧
    (∀ (root : Json) (names : List (List Nat)), root.syscap = some names →
      names.length < 33554432 → (∃ s ∈ names, ¬ capHead <+: s) →
        RPCIDEncode root = .exit (-1) none) ∧
    (∀ (root : Json) (names : List (List Nat)), root.syscap = some names →
      names.length < 2147483648 → (∃ s ∈ names, ¬ capHead <+: s) →
        ∀ (ret : Int) (file : List Nat), RPCIDEncode root ≠ .exit ret (some file)) ∧
    (∀ (v : Int) (s : List Nat), s.length ≤ 17 + 128 →
      ((∃ file, RPCIDEncode { api_version := some v, syscap := some [s] }
          = .exit 0 (some file)) ↔ capHead <+: s)) := by
  refine ⟨headCheck_iff, ?_, ?_, ?_, ?_⟩
  · rintro s hs ⟨suf, rfl⟩
    rcases hs with h | ⟨p, hp, ht⟩
    · rw [strchr_capHead] at h; exact absurd h (by simp)
    · rw [strchr_capHead] at hp
      simp only [Option.some.injEq] at hp
      subst hp
      exact ht (by simp [capHead])
  · intro root names hnames hn ⟨s, hs, hbad⟩
    apply RPCIDEncode_bad root names hnames hn
    exact ⟨s, hs, fun ⟨suf, h, _⟩ => hbad ⟨suf, h.symm⟩⟩
  · intro root names hnames hint ⟨s, hs, hbad⟩ ret file hfile
    have hret := RPCIDEncode_file_ret root ret file hfile
    subst hret
    obtain ⟨_, sufs, _, rfl, _⟩ := RPCIDEncode_ok_inv root names file hnames hint hfile
    obtain ⟨suf, _, rfl⟩ := List.mem_map.mp hs
    exact hbad ⟨suf, rfl⟩
  · intro v s hlen
    constructor
    · rintro ⟨file, hfile⟩
      by_contra hbad
      have := RPCIDEncode_bad { api_version := some v, syscap := some [s] } [s] rfl (by simp)
        ⟨s, List.mem_singleton.mpr rfl, fun ⟨suf, h, _⟩ => hbad ⟨suf, h.symm⟩⟩
      rw [this] at hfile
      exact absurd hfile (by simp)
    · rintro ⟨suf, rfl⟩
      have hsuf : suf.length ≤ 128 := by
        simp only [List.length_append, capHead_length] at hlen; omega
      exact ⟨_, RPCIDEncode_wellformed v [suf] (by simp)
        (by intro t ht; rw [List.mem_singleton] at ht; rw [ht]; exact hsuf)⟩

/-- Witness of encoder_head_check: the entry "Communication.WiFi", which lacks the
head "SystemCapability.", makes the encode of a two-entry descriptor fail. -/
theorem encoder_head_check_witness :
    RPCIDEncode { api_version := some 9,
                  syscap := some [ascii "SystemCapability.Communication.WiFi",
                                  ascii "Communication.WiFi"] } = .exit (-1) none :=
  encoder_head_check.2.2.1 _ _ rfl (by decide) ⟨ascii "Communication.WiFi", by decide, by decide⟩

/-- C7 (the encoder at the boundary): a name suffix of exactly 128 bytes is accepted
by RPCIDEncode and fills its whole slot, which then holds no terminating NUL. -/
theorem encode_accepts_128_byte_suffix (v : Int) (suf : List Nat) (hlen : suf.length = 128) :
    RPCIDEncode { api_version := some v, syscap := some [capHead ++ suf] } =
      .exit 0 (some (headBytes (toU16 v) 128 ++ suf)) ∧
    slotAt (headBytes (toU16 v) 128 ++ suf) 0 = suf := by
  have h := RPCIDEncode_wellformed v [suf] (by simp)
    (by intro t ht; rw [List.mem_singleton] at ht; rw [ht, hlen])
  have hslot : slotOf suf = suf := by
    simp [slotOf, hlen]
  simp only [List.map_cons, List.map_nil, List.length_singleton, List.flatten_cons,
    List.flatten_nil, List.append_nil, hslot] at h
  refine ⟨h, ?_⟩
  have := slotAt_encoded (toU16 v) 128 [suf]
    (by intro t ht; rw [List.mem_singleton] at ht; rw [ht, hlen]) 0 (by simp)
  simpa [hslot] using this

set_option maxRecDepth 100000 in
/-- Witness of encode_accepts_128_byte_suffix (the failing input of C7): api_version 9
and the name "SystemCapability." followed by 128 letters A. The encode returns 0 and
writes a 134-byte file whose slot holds no NUL; RPCIDDecode cannot read it back;
one more letter makes the encode fail. -/
theorem encode_accepts_128_byte_suffix_witness :
    (RPCIDEncode { api_version := some 9, syscap := some [capHead ++ List.replicate 128 65] } =
        .exit 0 (some (headBytes (toU16 9) 128 ++ List.replicate 128 65)) ∧
      slotAt (headBytes (toU16 9) 128 ++ List.replicate 128 65) 0 = List.replicate 128 65) ∧
    RPCIDDecode (headBytes (toU16 9) 128 ++ List.replicate 128 65) = .exit 0 none ∧
    RPCIDEncode { api_version := some 9, syscap := some [capHead ++ List.replicate 129 65] } =
      .exit (-1) none :=
  ⟨encode_accepts_128_byte_suffix 9 (List.replicate 128 65) (by simp), by decide, by decide⟩


theorem be16At_head0 (u len : Nat) (rest : List Nat) :
    be16At (headBytes u len ++ rest) 0 = 256 * (u / 256 % 256) + (128 + u % 128) := by
  simp [be16At, headBytes]

theorem be16At_head2 (u len : Nat) (rest : List Nat) :
    be16At (headBytes u len ++ rest) 2 = 2 := by
  simp [be16At, headBytes]

theorem be16At_head4 (u len : Nat) (rest : List Nat) :
    be16At (headBytes u len ++ rest) 4 = len % 65536 := by
  simp only [be16At, headBytes, List.cons_append, List.getD_cons_succ, List.getD_cons_zero]
  omega

/-- C8 (as amended): for every descriptor with n syscap entries (n below 2^31, the
sizes that cJSON_GetArraySize can report) on which RPCIDEncode succeeds, the output buffer has exactly 6 + 128 n bytes and its
capabilitySetByteLength field (16 bits at offset 4, network byte order) equals
128 n modulo 65536, which is 128 n exactly when n is at most 511. -/
theorem encoded_size_fields (root : Json) (names : List (List Nat)) (file : List Nat)
    (hnames : root.syscap = some names) (hint : names.length < 2147483648)
    (h : RPCIDEncode root = .exit 0 (some file)) :
    file.length = 6 + 128 * names.length ∧
    be16At file 4 = 128 * names.length % 65536 ∧
    (names.length ≤ 511 → be16At file 4 = 128 * names.length) := by
  obtain ⟨v, sufs, _, rfl, hl, hn, rfl⟩ := RPCIDEncode_ok_inv root names file hnames hint h
  have h4 := be16At_head4 (toU16 v) (128 * sufs.length % 65536) ((sufs.map slotOf).flatten)
  rw [List.length_map]
  refine ⟨encoded_length _ _ _ hl, by rw [h4]; omega, fun hle => by rw [h4]; omega⟩

/-- Witness of encoded_size_fields: the descriptor with api_version 9 and the single
name "SystemCapability.Communication.WiFi": 134 bytes, length field 128. -/
theorem encoded_size_fields_witness :
    (headBytes 9 128 ++ slotOf (ascii "Communication.WiFi")).length = 6 + 128 * 1 ∧
    be16At (headBytes 9 128 ++ slotOf (ascii "Communication.WiFi")) 4 = 128 * 1 % 65536 ∧
    (1 ≤ 511 → be16At (headBytes 9 128 ++ slotOf (ascii "Communication.WiFi")) 4 = 128 * 1) :=
  encoded_size_fields
    { api_version := some 9, syscap := some [ascii "SystemCapability.Communication.WiFi"] }
    [ascii "SystemCapability.Communication.WiFi"]
    (headBytes 9 128 ++ slotOf (ascii "Communication.WiFi")) rfl (by decide)
    (by
      have h := RPCIDEncode_wellformed 9 [ascii "Communication.WiFi"] (by decide) (by decide)
      simpa using h)

/-- C8 (counterexample): the descriptor with api_version 9 and 512 entries
"SystemCapability.A" is encoded without error into 6 + 128 * 512 = 65542 bytes whose
capabilitySetByteLength field holds 0, not 65536. -/
theorem size_field_wraps_at_512_entries :
    ∃ file, RPCIDEncode { api_version := some 9,
                          syscap := some (List.replicate 512 (ascii "SystemCapability.A")) }
        = .exit 0 (some file) ∧
      file.length = 6 + 128 * 512 ∧ be16At file 4 = 0 := by
  have hl : ∀ suf ∈ List.replicate 512 [65], suf.length ≤ 128 := by
    intro suf hs
    rw [List.eq_of_mem_replicate hs]; decide
  have h := RPCIDEncode_wellformed 9 (List.replicate 512 [65])
    (by rw [List.length_replicate]; decide) hl
  have hmap : (List.replicate 512 [65]).map (capHead ++ ·) =
      List.replicate 512 (ascii "SystemCapability.A") := by
    rw [List.map_replicate]; rfl
  rw [hmap] at h
  refine ⟨_, h, ?_, ?_⟩
  · rw [encoded_length _ _ _ hl, List.length_replicate]
  · rw [be16At_head4, List.length_replicate]


/-- C9 (what the header holds): for every api_version v in 0..32767 and every list of
name suffixes of at most 128 bytes, RPCIDEncode writes a file whose first two bytes,
read as one 16-bit word in network byte order, are 256 * (v / 256) + 128 + v mod 128:
bit 15 of that word is 0 and the apiVersionType flag sits in bit 7, in the place of
bit 7 of v; bytes 2..3 are the big-endian value 2 and bytes 4..5 the big-endian
capability-set length. -/
theorem header_word_as_written (v : Int) (sufs : List (List Nat))
    (hv : 0 ≤ v ∧ v < 32768) (hn : sufs.length < 33554432)
    (hl : ∀ suf ∈ sufs, suf.length ≤ 128) :
    ∃ file, RPCIDEncode { api_version := some v, syscap := some (sufs.map (capHead ++ ·)) }
        = .exit 0 (some file) ∧
      be16At file 0 = 256 * (v.toNat / 256) + 128 + v.toNat % 128 ∧
      be16At file 0 / 32768 = 0 ∧
      be16At file 0 / 128 % 2 = 1 ∧
      be16At file 2 = 2 ∧
      be16At file 4 = 128 * sufs.length % 65536 := by
  refine ⟨_, RPCIDEncode_wellformed v sufs hn hl, ?_, ?_, ?_, be16At_head2 _ _ _, ?_⟩
  · rw [be16At_head0]; unfold toU16; omega
  · rw [be16At_head0]; unfold toU16; omega
  · rw [be16At_head0]; unfold toU16; omega
  · rw [be16At_head4]; omega

/-- Witness of header_word_as_written (the failing input of C9): for api_version 9
and the name "SystemCapability.Communication.WiFi" the first two bytes are 00 89,
the word 0x0089 = 137, where the claimed layout is 0x8009 = 32777. -/
theorem header_word_as_written_witness :
    ∃ file, RPCIDEncode { api_version := some 9,
                          syscap := some ([ascii "Communication.WiFi"].map (capHead ++ ·)) }
        = .exit 0 (some file) ∧
      be16At file 0 = 256 * ((9 : Int).toNat / 256) + 128 + (9 : Int).toNat % 128 ∧
      be16At file 0 / 32768 = 0 ∧
      be16At file 0 / 128 % 2 = 1 ∧
      be16At file 2 = 2 ∧
      be16At file 4 = 128 * [ascii "Communication.WiFi"].length % 65536 :=
  header_word_as_written 9 [ascii "Communication.WiFi"] (by decide) (by decide) (by decide)

/-- The file of the concrete scenario: the header 00 89 00 02 00 80 and the slot of
"Communication.WiFi". -/
theorem wifiFile_eq :
    headBytes 9 128 ++ slotOf (ascii "Communication.WiFi") =
      [0, 137, 0, 2, 0, 128] ++ ascii "Communication.WiFi" ++ List.replicate 110 0 := by
  decide

set_option maxRecDepth 100000 in
/-- C10: encoding the descriptor with api_version 9 and the syscap array
["SystemCapability.Communication.WiFi"] succeeds and produces a 134-byte buffer; its
header reads back as api_version 9, apiVersionType 1, capabilitySetType 2,
capabilitySetByteLength 128; its slot 0 (bytes 6..133) is "Communication.WiFi"
followed by NUL bytes only; CheckRpcidFormat accepts the file, and ParseRpcidToJson
and RPCIDDecode give back api_version 9 and the same syscap array. -/
theorem wifi_scenario :
    RPCIDEncode { api_version := some 9,
                  syscap := some [ascii "SystemCapability.Communication.WiFi"] }
      = .exit 0 (some ([0, 137, 0, 2, 0, 128] ++ ascii "Communication.WiFi" ++
          List.replicate 110 0)) ∧
    ([0, 137, 0, 2, 0, 128] ++ ascii "Communication.WiFi" ++ List.replicate 110 0).length = 134 ∧
    (load16 ([0, 137, 0, 2, 0, 128] ++ ascii "Communication.WiFi" ++ List.replicate 110 0) 0).map
        (fun w => (NtohsInter (getApiVersion w), getApiVersionType w)) = some (9, 1) ∧
    be16At ([0, 137, 0, 2, 0, 128] ++ ascii "Communication.WiFi" ++ List.replicate 110 0) 2 = 2 ∧
    be16At ([0, 137, 0, 2, 0, 128] ++ ascii "Communication.WiFi" ++ List.replicate 110 0) 4
      = 128 ∧
    slotAt ([0, 137, 0, 2, 0, 128] ++ ascii "Communication.WiFi" ++ List.replicate 110 0) 0
      = ascii "Communication.WiFi" ++ List.replicate 110 0 ∧
    CheckRpcidFormat ([0, 137, 0, 2, 0, 128] ++ ascii "Communication.WiFi" ++
        List.replicate 110 0)
      = .ok ([0, 137, 0, 2, 0, 128] ++ ascii "Communication.WiFi" ++ List.replicate 110 0 ++ [0],
          135) ∧
    ParseRpcidToJson ([0, 137, 0, 2, 0, 128] ++ ascii "Communication.WiFi" ++
        List.replicate 110 0 ++ [0]) 135
      = .ok { api_version := some 9,
              syscap := some [ascii "SystemCapability.Communication.WiFi"] } ∧
    RPCIDDecode ([0, 137, 0, 2, 0, 128] ++ ascii "Communication.WiFi" ++ List.replicate 110 0)
      = .exit 0 (some { api_version := some 9,
                        syscap := some [ascii "SystemCapability.Communication.WiFi"] }) := by
  refine ⟨?_, by decide, by decide, by decide, by decide, by decide, by decide, by decide,
    by decide⟩
  have h := RPCIDEncode_wellformed 9 [ascii "Communication.WiFi"] (by decide) (by decide)
  rw [← wifiFile_eq]
  simpa using h


theorem parseLoop_length (input : List Nat) (b : Nat) :
    ∀ (k i : Nat) (acc out : List (List Nat)),
      parseLoop input b i k acc = .ok out → out.length = acc.length + k := by
  intro k
  induction k with
  | zero =>
    intro i acc out h
    simp only [parseLoop, Res.ok.injEq] at h
    rw [← h]; rfl
  | succ k ih =>
    intro i acc out h
    unfold parseLoop at h
    simp only [] at h
    split at h
    · exact absurd h (by simp)
    · split at h
      · exact absurd h (by simp)
      · split at h
        · exact absurd h (by simp)
        · have := ih _ _ _ h
          rw [this, List.length_append, List.length_singleton]; omega

theorem NtohsInter_lt (n : Nat) : NtohsInter n < 65536 := by
  unfold NtohsInter; omega

theorem ParseRpcidToJson_ok_length (input : List Nat) (len : Nat) (json : Json)
    (names : List (List Nat)) (h : ParseRpcidToJson input len = .ok json)
    (hnames : json.syscap = some names) : names.length ≤ 511 := by
  unfold ParseRpcidToJson at h
  split at h
  · exact absurd h (by simp)
  · rename_i w2 _
    simp only [] at h
    split at h
    · exact absurd h (by simp)
    · exact absurd h (by simp)
    · rename_i out hloop
      split at h
      · exact absurd h (by simp)
      · simp only [Res.ok.injEq] at h
        subst h
        simp only [Option.some.injEq] at hnames
        subst hnames
        have := parseLoop_length _ _ _ _ _ _ hloop
        have hlt := NtohsInter_lt w2
        simp only [SINGLE_FEAT_LENGTH, List.length_nil] at this
        omega

theorem setBitLoop_out_of_range (index : List Nat) :
    ∀ out : List Nat, out.length = 120 → (∃ k ∈ index, 960 ≤ k) →
      ∃ out1, setBitLoop index out = some (-1, out1) := by
  induction index with
  | nil => intro out _ h; obtain ⟨k, hk, _⟩ := h; simp at hk
  | cons k rest ih =>
    intro out hlen hbad
    unfold setBitLoop
    simp only [UINT8_BIT, BYTES_OF_OS_SYSCAP]
    by_cases hk : k / 8 ≥ 120
    · exact ⟨out, by rw [if_pos hk]⟩
    · rw [if_neg hk, List.getElem?_eq_getElem (by omega)]
      simp only []
      apply ih
      · rw [List.length_set, hlen]
      · obtain ⟨j, hj, hj2⟩ := hbad
        rcases List.mem_cons.mp hj with rfl | hj
        · omega
        · exact ⟨j, hj, hj2⟩

theorem partitionLoop_ret (sysCapDefine : List (List Nat × Int)) (destMax : Nat)
    (l : List (List Nat)) :
    ∀ (os : List Nat) (pri : List (List Nat)) (r : Int) (os1 : List Nat)
      (pri1 : List (List Nat)),
      partitionLoop sysCapDefine destMax l 0 os pri = .ok (r, os1, pri1) → r = 0 := by
  induction l with
  | nil =>
    intro os pri r os1 pri1 h
    simp only [partitionLoop, Res.ok.injEq, Prod.mk.injEq] at h
    exact h.1.symm
  | cons s rest ih =>
    intro os pri r os1 pri1 h
    unfold partitionLoop at h
    split at h
    · exact ih _ _ _ _ _ h
    · split at h
      split at h
      · exact absurd h (by simp)
      · rename_i hret
        simp only [ne_eq, not_not] at hret
        rw [hret] at h
        exact ih _ _ _ _ _ h

/-- C5 (what the two decoding operations return on failure): when CheckRpcidFormat
rejects the input, or ParseRpcidToJson fails on the accepted buffer, RPCIDDecode and
DecodeRpcidToString return the status 0 and write no file; and when the indices
that the partition loop collected hold one that is 960 or more, so that
SetOsSysCapBitMap reports it, DecodeRpcidToString returns the status 0 and writes
no file. -/
theorem decode_failures_return_zero (arraySyscap : List SyscapWithNum) (inputFile : List Nat) :
    ((∃ r, CheckRpcidFormat inputFile = .fail r) →
      RPCIDDecode inputFile = .exit 0 none ∧
        DecodeRpcidToString arraySyscap inputFile = .exit 0 none) ∧
    (∀ buf len r, CheckRpcidFormat inputFile = .ok (buf, len) →
      ParseRpcidToJson buf len = .fail r →
        RPCIDDecode inputFile = .exit 0 none ∧
          DecodeRpcidToString arraySyscap inputFile = .exit 0 none) ∧
    (∀ buf len json names r os pri, CheckRpcidFormat inputFile = .ok (buf, len) →
      ParseRpcidToJson buf len = .ok json → json.syscap = some names →
      partitionLoop (CreateWholeSyscapJsonObj arraySyscap)
        (names.length * SINGLE_FEAT_LENGTH) names 0 [] [] = .ok (r, os, pri) →
      (∃ k ∈ os, 960 ≤ k) →
        DecodeRpcidToString arraySyscap inputFile = .exit 0 none) := by
  refine ⟨?_, ?_, ?_⟩
  · rintro ⟨r, hr⟩
    simp only [RPCIDDecode, DecodeRpcidToString, hr, and_self]
  · intro buf len r hc hp
    simp only [RPCIDDecode, DecodeRpcidToString, hc, hp, and_self]
  · intro buf len json names r os pri hc hp hnames hpart hbad
    have hlen := ParseRpcidToJson_ok_length _ _ _ _ hp hnames
    have h1 : toInt32 names.length = (names.length : Int) := toInt32_small _ (by omega)
    have h5 : ¬ ((names.length : Int) < 0) := by omega
    have hr := partitionLoop_ret _ _ _ _ _ _ _ _ hpart
    subst hr
    obtain ⟨rfl, _, hck⟩ := CheckRpcidFormat_ok_inv _ _ _ hc
    obtain ⟨h8, w0, w1, w2, hw0, _, _, _, hw2, _⟩ := (checkRpcidBuffer_ok_iff _ _).mp hck
    obtain ⟨out1, hset⟩ := setBitLoop_out_of_range os (List.replicate BYTES_OF_OS_SYSCAP 0)
      (by simp) hbad
    have hset2 : SetOsSysCapBitMap (List.replicate BYTES_OF_OS_SYSCAP 0) 120 os
        = some (-1, out1) := by
      unfold SetOsSysCapBitMap
      rw [if_neg (by simp), hset]
    simp only [DecodeRpcidToString, hc, hp, hnames, h1, if_neg h5, Int.toNat_ofNat,
      List.take_length, hpart, hw0, hw2, hset2]
    simp

set_option maxRecDepth 100000 in
/-- Witness of decode_failures_return_zero (the failing inputs of C5): a three-byte
file, which CheckRpcidFormat rejects; a file whose only slot holds no NUL, on which
ParseRpcidToJson fails; and the encoding of "SystemCapability.A" read with a table
that gives this name the number 960. Each time the status is 0. -/
theorem decode_failures_return_zero_witness :
    (RPCIDDecode [0, 0, 0] = .exit 0 none ∧ DecodeRpcidToString [] [0, 0, 0] = .exit 0 none) ∧
    (RPCIDDecode ([0, 137, 0, 2, 0, 128] ++ List.replicate 128 65) = .exit 0 none ∧
      DecodeRpcidToString [] ([0, 137, 0, 2, 0, 128] ++ List.replicate 128 65)
        = .exit 0 none) ∧
    DecodeRpcidToString [{ syscapStr := ascii "SystemCapability.A", num := 960 }]
      ([0, 137, 0, 2, 0, 128] ++ slotOf [65]) = .exit 0 none :=
  ⟨(decode_failures_return_zero [] [0, 0, 0]).1 ⟨-1, by decide⟩,
    (decode_failures_return_zero [] ([0, 137, 0, 2, 0, 128] ++ List.replicate 128 65)).2.1
      ([0, 137, 0, 2, 0, 128] ++ List.replicate 128 65 ++ [0]) 135 (-1) (by decide) (by decide),
    (decode_failures_return_zero [{ syscapStr := ascii "SystemCapability.A", num := 960 }]
      ([0, 137, 0, 2, 0, 128] ++ slotOf [65])).2.2
      ([0, 137, 0, 2, 0, 128] ++ slotOf [65] ++ [0]) 135
      { api_version := some 9, syscap := some [ascii "SystemCapability.A"] }
      [ascii "SystemCapability.A"] 0 [960] [] (by decide) (by decide) rfl (by decide)
      ⟨960, by decide, by decide⟩⟩


theorem strlenFrom_take (xs : List Nat) :
    ∀ (N m : Nat), strlenFrom xs = some m →
      (m < N ↔ 0 ∈ xs.take N) ∧ (m < N → slotString (xs.take N) = xs.take m) := by
  induction xs with
  | nil => intro N m h; simp [strlenFrom] at h
  | cons a as ih =>
    intro N m h
    by_cases ha : a = 0
    · subst ha
      simp only [strlenFrom, if_true, Option.some.injEq] at h
      subst h
      cases N with
      | zero => simp
      | succ n => simp [slotString]
    · simp only [strlenFrom, if_neg ha, Option.map_eq_some'] at h
      obtain ⟨q, hq, rfl⟩ := h
      cases N with
      | zero => simp
      | succ n =>
        obtain ⟨h1, h2⟩ := ih n q hq
        constructor
        · simp only [Nat.add_lt_add_iff_right, List.take_succ_cons, List.mem_cons]
          rw [h1]
          constructor
          · intro h; exact Or.inr h
          · rintro (h | h)
            · exact absurd h.symm ha
            · exact h
        · intro hlt
          have := h2 (by omega)
          simp only [slotString, List.take_succ_cons] at this ⊢
          rw [List.takeWhile_cons_of_pos (by simpa using ha), this]


/-- The name that ParseRpcidToJson builds from slot i of a buffer. -/
theorem parseLoop_step (file : List Nat) (i : Nat) (hfit : 6 + (i + 1) * 128 ≤ file.length + 1) :
    ∃ m, strlen (file ++ [0]) (6 + i * SINGLE_FEAT_LENGTH) = some m ∧
      (m < 128 ↔ 0 ∈ slotAt (file ++ [0]) i) ∧
      (m < 128 → ((file ++ [0]).drop (6 + i * SINGLE_FEAT_LENGTH)).take m =
        slotString (slotAt (file ++ [0]) i)) := by
  obtain ⟨m, hm, _⟩ := strlen_terminated file (6 + i * SINGLE_FEAT_LENGTH)
    (by simp only [SINGLE_FEAT_LENGTH]; omega)
  have hm2 : strlenFrom ((file ++ [0]).drop (6 + i * SINGLE_FEAT_LENGTH)) = some m := hm
  have hs := strlenFrom_take _ 128 m hm2
  have hslot : slotAt (file ++ [0]) i =
      ((file ++ [0]).drop (6 + i * SINGLE_FEAT_LENGTH)).take 128 := by
    simp only [slotAt, SINGLE_FEAT_LENGTH, Nat.mul_comm]
  rw [hslot]
  exact ⟨m, hm, hs.1, fun h => (hs.2 h).symm⟩

theorem strncat_s_name (s : List Nat) (h : s.length < 128) :
    strncat_s capHead (SINGLE_FEAT_LENGTH + 17) s SINGLE_FEAT_LENGTH = (EOK, capHead ++ s) := by
  have ht : s.take SINGLE_FEAT_LENGTH = s := List.take_of_length_le (by
    simp only [SINGLE_FEAT_LENGTH]; omega)
  unfold strncat_s
  rw [ht, if_pos (by simp only [SINGLE_FEAT_LENGTH, capHead_length]; omega)]

theorem parseLoop_all_terminated (file : List Nat) :
    ∀ (k i : Nat) (acc : List (List Nat)), 6 + (i + k) * 128 ≤ file.length + 1 →
      (∀ j, i ≤ j → j < i + k → 0 ∈ slotAt (file ++ [0]) j) →
      parseLoop (file ++ [0]) 6 i k acc = .ok (acc ++ (List.range' i k).map
        (fun j => capHead ++ slotString (slotAt (file ++ [0]) j))) := by
  intro k
  induction k with
  | zero => intro i acc _ _; simp [parseLoop]
  | succ k ih =>
    intro i acc hfit hall
    obtain ⟨m, hm, h1, h2⟩ := parseLoop_step file i (by omega)
    have hlt : m < 128 := h1.mpr (hall i (le_refl _) (by omega))
    have hlen : ((file ++ [0]).drop (6 + i * SINGLE_FEAT_LENGTH)).take m
        = slotString (slotAt (file ++ [0]) i) := h2 hlt
    have hlen2 : (slotString (slotAt (file ++ [0]) i)).length < 128 := by
      rw [← hlen, List.length_take]; omega
    have hge : ¬ (m ≥ SINGLE_FEAT_LENGTH) := by simp only [SINGLE_FEAT_LENGTH]; omega
    simp only [parseLoop, hm, if_neg hge, hlen, strncat_s_name _ hlen2]
    simp only [ne_eq, not_true_eq_false, if_false]
    rw [ih (i + 1) _ (by omega) (fun j hj1 hj2 => hall j (by omega) (by omega))]
    simp [List.range'_succ]

theorem parseLoop_unterminated (file : List Nat) :
    ∀ (k i : Nat) (acc : List (List Nat)), 6 + (i + k) * 128 ≤ file.length + 1 →
      (∃ j, i ≤ j ∧ j < i + k ∧ 0 ∉ slotAt (file ++ [0]) j) →
      parseLoop (file ++ [0]) 6 i k acc = .fail (-1) := by
  intro k
  induction k with
  | zero => intro i acc _ h; obtain ⟨j, h1, h2, _⟩ := h; omega
  | succ k ih =>
    intro i acc hfit hbad
    obtain ⟨m, hm, h1, h2⟩ := parseLoop_step file i (by omega)
    by_cases hlt : m < 128
    · have hlen : ((file ++ [0]).drop (6 + i * SINGLE_FEAT_LENGTH)).take m
          = slotString (slotAt (file ++ [0]) i) := h2 hlt
      have hlen2 : (slotString (slotAt (file ++ [0]) i)).length < 128 := by
        rw [← hlen, List.length_take]; omega
      have hge : ¬ (m ≥ SINGLE_FEAT_LENGTH) := by simp only [SINGLE_FEAT_LENGTH]; omega
      simp only [parseLoop, hm, if_neg hge, hlen, strncat_s_name _ hlen2]
      simp only [ne_eq, not_true_eq_false, if_false]
      apply ih (i + 1) _ (by omega)
      obtain ⟨j, hj1, hj2, hj3⟩ := hbad
      have hne : j ≠ i := by
        intro hji; subst hji; exact hj3 (h1.mp hlt)
      exact ⟨j, by omega, by omega, hj3⟩
    · have hge : m ≥ SINGLE_FEAT_LENGTH := by simp only [SINGLE_FEAT_LENGTH]; omega
      simp only [parseLoop, hm, if_pos hge]


theorem validated_length_field (inputFile : List Nat) (bufferLen : Nat)
    (hbytes : ∀ b ∈ inputFile, b < 256)
    (hc : checkRpcidBuffer (inputFile ++ [0]) bufferLen = .ok ()) :
    ∃ w0 w2, load16 (inputFile ++ [0]) 0 = some w0 ∧ load16 (inputFile ++ [0]) 4 = some w2 ∧
      NtohsInter w2 = be16At (inputFile ++ [0]) 4 ∧ 8 ≤ bufferLen ∧
      6 + be16At (inputFile ++ [0]) 4 ≤ bufferLen := by
  obtain ⟨h8, w0, w1, w2, hw0, _, _, _, hw2, hfit⟩ := (checkRpcidBuffer_ok_iff _ _).mp hc
  have hb : ∀ b ∈ inputFile ++ [0], b < 256 := by
    intro b hb
    rcases List.mem_append.mp hb with h | h
    · exact hbytes b h
    · rw [List.mem_singleton.mp h]; norm_num
  have hlt := load16_isSome _ _ _ hw2
  have hw2' := hw2
  rw [load16_eq _ _ hlt] at hw2'
  simp only [Option.some.injEq] at hw2'
  have hN : NtohsInter w2 = be16At (inputFile ++ [0]) 4 := by
    rw [← hw2', NtohsInter_bytes _ _ (getD_lt _ hb _) (getD_lt _ hb _)]
    rfl
  exact ⟨w0, w2, hw0, hw2, hN, h8, by rw [← hN]; exact hfit⟩

/-- C11: on the buffer that CheckRpcidFormat accepted, with length field L,
ParseRpcidToJson fails if and only if one of the first L / 128 slots holds no NUL
among its 128 bytes; otherwise it returns a syscap array of exactly L / 128 strings
whose element i is "SystemCapability." followed by the bytes of slot i before its
first NUL, in slot order, whatever the remainder of L modulo 128. -/
theorem decoder_result (inputFile contextBuffer : List Nat) (bufferLen : Nat)
    (h : CheckRpcidFormat inputFile = .ok (contextBuffer, bufferLen))
    (hbytes : ∀ b ∈ inputFile, b < 256) :
    ((∃ r, ParseRpcidToJson contextBuffer bufferLen = .fail r) ↔
      ∃ i, i < be16At contextBuffer 4 / 128 ∧ 0 ∉ slotAt contextBuffer i) ∧
    ((∀ i, i < be16At contextBuffer 4 / 128 → 0 ∈ slotAt contextBuffer i) →
      ∃ v, ParseRpcidToJson contextBuffer bufferLen =
        .ok { api_version := some v,
              syscap := some ((List.range (be16At contextBuffer 4 / 128)).map
                (fun i => capHead ++ slotString (slotAt contextBuffer i))) }) := by
  obtain ⟨rfl, hle, hc⟩ := CheckRpcidFormat_ok_inv _ _ _ h
  obtain ⟨w0, w2, hw0, hw2, hN, h8, hfit⟩ := validated_length_field inputFile bufferLen hbytes hc
  have hfit2 : 6 + (0 + be16At (inputFile ++ [0]) 4 / 128) * 128 ≤ inputFile.length + 1 := by
    omega
  have hgood : (∀ i, i < be16At (inputFile ++ [0]) 4 / 128 → 0 ∈ slotAt (inputFile ++ [0]) i) →
      ParseRpcidToJson (inputFile ++ [0]) bufferLen =
        .ok { api_version := some ((NtohsInter (getApiVersion w0) : Nat) : Int),
              syscap := some ((List.range (be16At (inputFile ++ [0]) 4 / 128)).map
                (fun i => capHead ++ slotString (slotAt (inputFile ++ [0]) i))) } := by
    intro hall
    have hl := parseLoop_all_terminated inputFile _ 0 [] hfit2
      (fun j _ hj => hall j (by omega))
    unfold ParseRpcidToJson
    simp only [hw2, hN, SINGLE_FEAT_LENGTH, sizeofRPCIDHead, Nat.reduceAdd, hl, hw0,
      List.nil_append, List.range_eq_range']
  have hbad : (∃ i, i < be16At (inputFile ++ [0]) 4 / 128 ∧ 0 ∉ slotAt (inputFile ++ [0]) i) →
      ParseRpcidToJson (inputFile ++ [0]) bufferLen = .fail (-1) := by
    rintro ⟨i, hi, hz⟩
    have hl := parseLoop_unterminated inputFile _ 0 [] hfit2 ⟨i, Nat.zero_le _, by omega, hz⟩
    unfold ParseRpcidToJson
    simp only [hw2, hN, SINGLE_FEAT_LENGTH, sizeofRPCIDHead, Nat.reduceAdd, hl]
  refine ⟨⟨?_, fun hb => ⟨-1, hbad hb⟩⟩, fun hall => ⟨_, hgood hall⟩⟩
  rintro ⟨r, hr⟩
  by_contra hno
  have hall : ∀ i, i < be16At (inputFile ++ [0]) 4 / 128 → 0 ∈ slotAt (inputFile ++ [0]) i := by
    intro i hi
    by_contra hz
    exact hno ⟨i, hi, hz⟩
  rw [hgood hall] at hr
  exact absurd hr (by simp)

set_option maxRecDepth 100000 in
/-- Witness of decoder_result: the file of the descriptor with api_version 9 and the
name "SystemCapability.Communication.WiFi". -/
theorem decoder_result_witness :
    ∃ v, ParseRpcidToJson ([0, 137, 0, 2, 0, 128] ++ slotOf (ascii "Communication.WiFi") ++ [0])
        135 =
      .ok { api_version := some v,
            syscap := some ((List.range
              (be16At ([0, 137, 0, 2, 0, 128] ++ slotOf (ascii "Communication.WiFi") ++ [0]) 4
                / 128)).map
              (fun i => capHead ++ slotString
                (slotAt ([0, 137, 0, 2, 0, 128] ++ slotOf (ascii "Communication.WiFi") ++ [0])
                  i))) } :=
  (decoder_result ([0, 137, 0, 2, 0, 128] ++ slotOf (ascii "Communication.WiFi"))
    ([0, 137, 0, 2, 0, 128] ++ slotOf (ascii "Communication.WiFi") ++ [0]) 135
    (by decide) (by decide)).2 (by decide)

theorem ParseRpcidToJson_terminated (file : List Nat) (len w0 w2 : Nat)
    (hw0 : load16 (file ++ [0]) 0 = some w0) (hw2 : load16 (file ++ [0]) 4 = some w2)
    (hfit : 6 + NtohsInter w2 / 128 * 128 ≤ file.length + 1)
    (hall : ∀ i, i < NtohsInter w2 / 128 → 0 ∈ slotAt (file ++ [0]) i) :
    ParseRpcidToJson (file ++ [0]) len =
      .ok { api_version := some ((NtohsInter (getApiVersion w0) : Nat) : Int),
            syscap := some ((List.range (NtohsInter w2 / 128)).map
              (fun i => capHead ++ slotString (slotAt (file ++ [0]) i))) } := by
  have hl := parseLoop_all_terminated file (NtohsInter w2 / 128) 0 [] (by omega)
    (fun j _ hj => hall j (by omega))
  unfold ParseRpcidToJson
  simp only [hw2, SINGLE_FEAT_LENGTH, sizeofRPCIDHead, Nat.reduceAdd, hl, hw0,
    List.nil_append, List.range_eq_range']

theorem ParseRpcidToJson_unterminated (file : List Nat) (len w2 : Nat)
    (hw2 : load16 (file ++ [0]) 4 = some w2)
    (hfit : 6 + NtohsInter w2 / 128 * 128 ≤ file.length + 1)
    (hbad : ∃ i, i < NtohsInter w2 / 128 ∧ 0 ∉ slotAt (file ++ [0]) i) :
    ParseRpcidToJson (file ++ [0]) len = .fail (-1) := by
  obtain ⟨i, hi, hz⟩ := hbad
  have hl := parseLoop_unterminated file (NtohsInter w2 / 128) 0 [] (by omega)
    ⟨i, Nat.zero_le _, by omega, hz⟩
  unfold ParseRpcidToJson
  simp only [hw2, SINGLE_FEAT_LENGTH, sizeofRPCIDHead, Nat.reduceAdd, hl]

theorem load16_append (b x : List Nat) (off : Nat) (h : off + 1 < b.length) :
    load16 (b ++ x) off = load16 b off := by
  unfold load16
  rw [List.getElem?_append_left (by omega), List.getElem?_append_left h]

theorem slotAt_append (b x : List Nat) (i : Nat) (h : 6 + 128 * (i + 1) ≤ b.length) :
    slotAt (b ++ x) i = slotAt b i := by
  unfold slotAt
  simp only [SINGLE_FEAT_LENGTH]
  rw [List.drop_append_of_le_length (by omega),
    List.take_append_of_le_length (by rw [List.length_drop]; omega)]

theorem be16At_append (b x : List Nat) (off : Nat) (h : off + 1 < b.length) :
    be16At (b ++ x) off = be16At b off := by
  unfold be16At
  rw [List.getD_append _ _ _ _ (by omega), List.getD_append _ _ _ _ h]

/-- Trailing bytes after a file that holds its declared length change neither the
verdict of CheckRpcidFormat nor the result of ParseRpcidToJson. -/
theorem trailing_bytes_ignored (b t contextBuffer : List Nat) (bufferLen : Nat)
    (h : CheckRpcidFormat b = .ok (contextBuffer, bufferLen))
    (hbytes : ∀ x ∈ b, x < 256)
    (hfull : 6 + be16At b 4 ≤ b.length)
    (hsize : (b ++ t).length + 1 < 4294967296) :
    CheckRpcidFormat (b ++ t) = .ok (b ++ t ++ [0], (b ++ t).length + 1) ∧
    ParseRpcidToJson (b ++ t ++ [0]) ((b ++ t).length + 1) =
      ParseRpcidToJson contextBuffer bufferLen := by
  obtain ⟨rfl, hle, hc⟩ := CheckRpcidFormat_ok_inv _ _ _ h
  obtain ⟨w0, w2, hw0, hw2, hN, h8, hfit⟩ := validated_length_field b bufferLen hbytes hc
  obtain ⟨_, v0, v1, v2, hv0, ht, hv1, h2, hv2, hf⟩ := (checkRpcidBuffer_ok_iff _ _).mp hc
  have hlen6 : 6 ≤ b.length := by omega
  have hN2 : NtohsInter w2 = be16At b 4 := by
    rw [hN, be16At_append _ _ _ (by omega)]
  have hb0 : load16 b 0 = some w0 := by rw [← load16_append b [0] 0 (by omega)]; exact hw0
  have hb2 : load16 b 4 = some w2 := by rw [← load16_append b [0] 4 (by omega)]; exact hw2
  have hb1 : load16 b 2 = some v1 := by rw [← load16_append b [0] 2 (by omega)]; exact hv1
  have hv0' : v0 = w0 := by rw [hw0] at hv0; exact (Option.some.inj hv0).symm
  have hv2' : v2 = w2 := by rw [hw2] at hv2; exact (Option.some.inj hv2).symm
  subst hv0' hv2'
  have ht0 : load16 (b ++ t ++ [0]) 0 = some v0 := by
    rw [List.append_assoc, load16_append b _ 0 (by omega)]; exact hb0
  have ht1 : load16 (b ++ t ++ [0]) 2 = some v1 := by
    rw [List.append_assoc, load16_append b _ 2 (by omega)]; exact hb1
  have ht2 : load16 (b ++ t ++ [0]) 4 = some v2 := by
    rw [List.append_assoc, load16_append b _ 4 (by omega)]; exact hb2
  have hcheck : CheckRpcidFormat (b ++ t) = .ok (b ++ t ++ [0], (b ++ t).length + 1) := by
    have hne : ¬ (b ++ t).length = 0 := by rw [List.length_append]; omega
    have hck : checkRpcidBuffer (b ++ t ++ [0]) ((b ++ t).length + 1) = .ok () :=
      (checkRpcidBuffer_ok_iff _ _).mpr ⟨by rw [List.length_append]; omega, v0, v1, v2, ht0, ht,
        ht1, h2, ht2, by rw [List.length_append]; omega⟩
    unfold CheckRpcidFormat GetFileContext
    rw [if_neg hne, toU32_small _ hsize]
    simp only [hck]
  refine ⟨hcheck, ?_⟩
  have hslot : ∀ i, i < NtohsInter v2 / 128 →
      slotAt (b ++ t ++ [0]) i = slotAt (b ++ [0]) i := by
    intro i hi
    rw [List.append_assoc, slotAt_append b _ i (by omega), slotAt_append b _ i (by omega)]
  by_cases hall : ∀ i, i < NtohsInter v2 / 128 → 0 ∈ slotAt (b ++ [0]) i
  · rw [ParseRpcidToJson_terminated b bufferLen v0 v2 hw0 hw2 (by omega) hall,
      ParseRpcidToJson_terminated (b ++ t) _ v0 v2 ht0 ht2 (by rw [List.length_append]; omega)
        (fun i hi => by rw [hslot i hi]; exact hall i hi)]
    congr 3
    apply List.map_congr_left
    intro i hi
    rw [hslot i (List.mem_range.mp hi)]
  · have hbad : ∃ i, i < NtohsInter v2 / 128 ∧ 0 ∉ slotAt (b ++ [0]) i := by
      by_contra hno
      exact hall (fun i hi => by
        by_contra hz
        exact hno ⟨i, hi, hz⟩)
    obtain ⟨i, hi, hz⟩ := hbad
    rw [ParseRpcidToJson_unterminated b bufferLen v2 hw2 (by omega) ⟨i, hi, hz⟩,
      ParseRpcidToJson_unterminated (b ++ t) _ v2 ht2 (by rw [List.length_append]; omega)
        ⟨i, hi, by rw [hslot i hi]; exact hz⟩]


set_option maxRecDepth 100000 in
/-- C12 (the failing input): the 133-byte file b that declares 128 bytes of names and
holds the header and 127 letters A is accepted by CheckRpcidFormat, and
ParseRpcidToJson reads from it the name of 127 letters A, the NUL that GetFileContext
appended closing the slot; the file b followed by one letter B is accepted too, and
on it ParseRpcidToJson fails. -/
theorem trailing_byte_changes_result :
    CheckRpcidFormat ([0, 137, 0, 2, 0, 128] ++ List.replicate 127 65) =
      .ok ([0, 137, 0, 2, 0, 128] ++ List.replicate 127 65 ++ [0], 134) ∧
    ParseRpcidToJson ([0, 137, 0, 2, 0, 128] ++ List.replicate 127 65 ++ [0]) 134 =
      .ok { api_version := some 9, syscap := some [capHead ++ List.replicate 127 65] } ∧
    CheckRpcidFormat ([0, 137, 0, 2, 0, 128] ++ List.replicate 127 65 ++ [66]) =
      .ok ([0, 137, 0, 2, 0, 128] ++ List.replicate 127 65 ++ [66] ++ [0], 135) ∧
    ParseRpcidToJson ([0, 137, 0, 2, 0, 128] ++ List.replicate 127 65 ++ [66] ++ [0]) 135 =
      .fail (-1) := by
  refine ⟨by decide, by decide, by decide, by decide⟩

theorem setBitLoop_range (index : List Nat) :
    ∀ out : List Nat, 120 ≤ out.length →
      ∃ ret out1, setBitLoop index out = some (ret, out1) ∧
        (ret ≠ 0 ↔ ∃ k ∈ index, 960 ≤ k) ∧ out1.length = out.length ∧
        out1.drop 120 = out.drop 120 := by
  induction index with
  | nil => intro out _; exact ⟨0, out, rfl, by simp, rfl, rfl⟩
  | cons k rest ih =>
    intro out hlen
    unfold setBitLoop
    simp only [UINT8_BIT, BYTES_OF_OS_SYSCAP]
    by_cases hk : k / 8 ≥ 120
    · refine ⟨-1, out, by rw [if_pos hk], ?_, rfl, rfl⟩
      constructor
      · intro _; exact ⟨k, List.mem_cons_self _ _, by omega⟩
      · intro _; decide
    · have hlt : k / 8 < out.length := by omega
      rw [if_neg hk, List.getElem?_eq_getElem hlt]
      simp only []
      obtain ⟨ret, out1, h1, h2, h3, h4⟩ :=
        ih (out.set (k / 8) ((out[k / 8] ||| 1 <<< (k % 8)) % 256))
          (by rw [List.length_set]; exact hlen)
      refine ⟨ret, out1, h1, ?_, by rw [h3, List.length_set], ?_⟩
      · rw [h2]
        constructor
        · rintro ⟨j, hj, hj2⟩; exact ⟨j, List.mem_cons_of_mem _ hj, hj2⟩
        · rintro ⟨j, hj, hj2⟩
          rcases List.mem_cons.mp hj with rfl | hj
          · omega
          · exact ⟨j, hj, hj2⟩
      · rw [h4, List.drop_set_of_lt _ _ (by omega)]

/-- C13: on an output array of at least 120 bytes given with the length 120,
SetOsSysCapBitMap returns an error if and only if the list holds an index of 960 or
more (byte offset index / 8 of 120 or more), and whatever it returns it leaves the
bytes from offset 120 on as they were; given any other length it returns the error
-1 and leaves the array as it was. -/
theorem setOsSysCapBitMap_range_check (out index : List Nat) (hlen : 120 ≤ out.length) :
    (∃ ret out1, SetOsSysCapBitMap out 120 index = some (ret, out1) ∧
      (ret ≠ 0 ↔ ∃ k ∈ index, 960 ≤ k) ∧
      ((∃ k ∈ index, 120 ≤ k / 8) ↔ ∃ k ∈ index, 960 ≤ k) ∧
      out1.length = out.length ∧ out1.drop 120 = out.drop 120) ∧
    (∀ outLen, outLen ≠ 120 → SetOsSysCapBitMap out outLen index = some (-1, out)) := by
  constructor
  · obtain ⟨ret, out1, h1, h2, h3, h4⟩ := setBitLoop_range index out hlen
    refine ⟨ret, out1, ?_, h2, ?_, h3, h4⟩
    · unfold SetOsSysCapBitMap
      rw [if_neg (by simp)]; exact h1
    · constructor
      · rintro ⟨k, hk, h⟩; exact ⟨k, hk, by omega⟩
      · rintro ⟨k, hk, h⟩; exact ⟨k, hk, by omega⟩
  · intro outLen hne
    unfold SetOsSysCapBitMap
    rw [if_pos (by simpa using hne)]

set_option maxRecDepth 100000 in
/-- Witness of setOsSysCapBitMap_range_check: a zero-filled array of 121 bytes and
the indices 5, 960, 7: the index 960 is reported after bit 5 was set, and byte 120
is untouched. -/
theorem setOsSysCapBitMap_range_check_witness :
    SetOsSysCapBitMap (List.replicate 121 0) 120 [5, 960, 7] =
      some (-1, 32 :: List.replicate 120 0) ∧
    SetOsSysCapBitMap (List.replicate 121 0) 121 [5] = some (-1, List.replicate 121 0) :=
  ⟨by decide,
    (setOsSysCapBitMap_range_check (List.replicate 121 0) [5] (by simp)).2 121 (by decide)⟩


theorem testBit_setBit_byte (byte pos j : Nat) (hj : j < 8) :
    ((byte ||| 1 <<< pos) % 256).testBit j = (byte.testBit j || decide (pos = j)) := by
  rw [show (256 : Nat) = 2 ^ 8 by norm_num, Nat.testBit_mod_two_pow, Nat.testBit_or,
    Nat.one_shiftLeft, Nat.testBit_two_pow]
  simp [hj]

theorem bitAt_set (out : List Nat) (j k v : Nat) (hj : j / 8 < out.length) :
    bitAt (out.set (j / 8) v) k =
      if k / 8 = j / 8 then v.testBit (k % 8) else bitAt out k := by
  unfold bitAt
  rw [List.getD_eq_getElem?_getD, List.getD_eq_getElem?_getD, List.getElem?_set]
  by_cases h : k / 8 = j / 8
  · rw [if_pos h.symm, if_pos hj, if_pos h]; rfl
  · rw [if_neg (fun h2 => h h2.symm), if_neg h]

theorem setBitLoop_bits (index : List Nat) :
    ∀ out : List Nat, out.length = 120 → (∀ b ∈ out, b < 256) → (∀ k ∈ index, k < 960) →
      ∃ out1, setBitLoop index out = some (0, out1) ∧ out1.length = 120 ∧
        (∀ b ∈ out1, b < 256) ∧
        ∀ k, bitAt out1 k = (bitAt out k || decide (k ∈ index)) := by
  induction index with
  | nil => intro out hlen hb _; exact ⟨out, rfl, hlen, hb, by simp⟩
  | cons j rest ih =>
    intro out hlen hb hidx
    have hj : j < 960 := hidx j (List.mem_cons_self _ _)
    have hlt : j / 8 < out.length := by omega
    have hk : ¬ (j / 8 ≥ 120) := by omega
    unfold setBitLoop
    simp only [UINT8_BIT, BYTES_OF_OS_SYSCAP]
    rw [if_neg hk, List.getElem?_eq_getElem hlt]
    simp only []
    obtain ⟨out1, h1, h2, h3, h4⟩ :=
      ih (out.set (j / 8) ((out[j / 8] ||| 1 <<< (j % 8)) % 256))
        (by rw [List.length_set]; exact hlen)
        (by
          intro b hb2
          rcases List.mem_or_eq_of_mem_set hb2 with h | h
          · exact hb b h
          · rw [h]; exact Nat.mod_lt _ (by norm_num))
        (fun k hk => hidx k (List.mem_cons_of_mem _ hk))
    refine ⟨out1, h1, h2, h3, ?_⟩
    intro k
    rw [h4 k, bitAt_set out j k _ hlt]
    by_cases hkj : k / 8 = j / 8
    · rw [if_pos hkj, testBit_setBit_byte _ _ _ (Nat.mod_lt _ (by norm_num))]
      have hget : out[j / 8] = out.getD (k / 8) 0 := by
        rw [hkj, List.getD_eq_getElem _ _ hlt]
      have hdec : decide (k ∈ j :: rest) = (decide (j % 8 = k % 8) || decide (k ∈ rest)) := by
        by_cases hmod : j % 8 = k % 8
        · have : k = j := by omega
          subst this; simp
        · have : k ≠ j := by intro h; subst h; exact hmod rfl
          simp [hmod, this]
      rw [hget, hdec, Bool.or_assoc]
      rfl
    · rw [if_neg hkj]
      have : k ≠ j := by intro h; subst h; exact hkj rfl
      simp [this]

theorem bitAt_replicate_zero (n k : Nat) : bitAt (List.replicate n 0) k = false := by
  unfold bitAt
  have : (List.replicate n 0).getD (k / 8) 0 = 0 := by
    rw [List.getD_eq_getElem?_getD]
    by_cases h : k / 8 < n
    · simp [List.getElem?_replicate, h]
    · simp [List.getElem?_replicate, h]
  rw [this]; simp

theorem bytes_ext (a b : List Nat) (ha : a.length = 120) (hb : b.length = 120)
    (hab : ∀ x ∈ a, x < 256) (hbb : ∀ x ∈ b, x < 256)
    (h : ∀ k, k < 960 → bitAt a k = bitAt b k) : a = b := by
  apply List.ext_getElem (by rw [ha, hb])
  intro i h1 h2
  apply Nat.eq_of_testBit_eq
  intro j
  by_cases hj : j < 8
  · have := h (8 * i + j) (by omega)
    unfold bitAt at this
    rw [show (8 * i + j) / 8 = i by omega, show (8 * i + j) % 8 = j by omega,
      List.getD_eq_getElem _ _ h1, List.getD_eq_getElem _ _ h2] at this
    exact this
  · have hp : 256 ≤ 2 ^ j := by
      calc 256 = 2 ^ 8 := by norm_num
        _ ≤ 2 ^ j := Nat.pow_le_pow_right (by norm_num) (by omega)
    rw [Nat.testBit_lt_two_pow (lt_of_lt_of_le (hab _ (List.getElem_mem _)) hp),
      Nat.testBit_lt_two_pow (lt_of_lt_of_le (hbb _ (List.getElem_mem _)) hp)]


theorem SetOsSysCapBitMap_bits (out index : List Nat) (hlen : out.length = 120)
    (hb : ∀ b ∈ out, b < 256) (hidx : ∀ k ∈ index, k < 960) :
    ∃ out1, SetOsSysCapBitMap out 120 index = some (0, out1) ∧ out1.length = 120 ∧
      (∀ b ∈ out1, b < 256) ∧
      ∀ k, bitAt out1 k = (bitAt out k || decide (k ∈ index)) := by
  obtain ⟨out1, h1, h2, h3, h4⟩ := setBitLoop_bits index out hlen hb hidx
  refine ⟨out1, ?_, h2, h3, h4⟩
  unfold SetOsSysCapBitMap
  rw [if_neg (by simp)]; exact h1

/-- C14: for every list of indices all below 960, SetOsSysCapBitMap on a zero-filled
120-byte array succeeds and leaves an array in which, for every k in 0..959, bit
(k mod 8) of byte (k div 8) is 1 if and only if k occurs in the list; two such lists
with the same members, whatever their order and repetitions, give the same array;
and on an array of 120 bytes that is not zero-filled every bit that was set stays
set. -/
theorem bitmap_packing :
    (∀ index : List Nat, (∀ k ∈ index, k < 960) →
      ∃ out1, SetOsSysCapBitMap (List.replicate 120 0) 120 index = some (0, out1) ∧
        out1.length = 120 ∧ ∀ k, k < 960 → (bitAt out1 k = true ↔ k ∈ index)) ∧
    (∀ l1 l2 : List Nat, (∀ k ∈ l1, k < 960) → (∀ k ∈ l2, k < 960) →
      (∀ k, k ∈ l1 ↔ k ∈ l2) →
        SetOsSysCapBitMap (List.replicate 120 0) 120 l1 =
          SetOsSysCapBitMap (List.replicate 120 0) 120 l2) ∧
    (∀ out index : List Nat, out.length = 120 → (∀ b ∈ out, b < 256) →
      (∀ k ∈ index, k < 960) →
        ∃ out1, SetOsSysCapBitMap out 120 index = some (0, out1) ∧
          ∀ k, bitAt out k = true → bitAt out1 k = true) := by
  have hz : ∀ b ∈ List.replicate 120 0, b < 256 := by
    intro b hb; rw [List.eq_of_mem_replicate hb]; norm_num
  refine ⟨?_, ?_, ?_⟩
  · intro index hidx
    obtain ⟨out1, h1, h2, _, h4⟩ :=
      SetOsSysCapBitMap_bits (List.replicate 120 0) index (by simp) hz hidx
    refine ⟨out1, h1, h2, fun k _ => ?_⟩
    rw [h4 k, bitAt_replicate_zero]
    simp
  · intro l1 l2 h1 h2 hmem
    obtain ⟨a, ha1, ha2, ha3, ha4⟩ :=
      SetOsSysCapBitMap_bits (List.replicate 120 0) l1 (by simp) hz h1
    obtain ⟨b, hb1, hb2, hb3, hb4⟩ :=
      SetOsSysCapBitMap_bits (List.replicate 120 0) l2 (by simp) hz h2
    rw [ha1, hb1]
    have : a = b := by
      apply bytes_ext a b ha2 hb2 ha3 hb3
      intro k _
      rw [ha4 k, hb4 k]
      congr 1
      exact decide_eq_decide.mpr (hmem k)
    rw [this]
  · intro out index hlen hb hidx
    obtain ⟨out1, h1, _, _, h4⟩ := SetOsSysCapBitMap_bits out index hlen hb hidx
    refine ⟨out1, h1, fun k hk => ?_⟩
    rw [h4 k, hk]; rfl

/-- Witness of bitmap_packing: the indices 10, 3, 10 and the indices 3, 10 give the
same array. -/
theorem bitmap_packing_witness :
    SetOsSysCapBitMap (List.replicate 120 0) 120 [10, 3, 10] =
      SetOsSysCapBitMap (List.replicate 120 0) 120 [3, 10] :=
  bitmap_packing.2.1 [10, 3, 10] [3, 10] (by decide) (by decide) (by
    intro k
    simp only [List.mem_cons, List.mem_singleton, List.not_mem_nil, or_false]
    constructor
    · rintro (h | h | h)
      · exact Or.inr h
      · exact Or.inl h
      · exact Or.inr h
    · rintro (h | h)
      · exact Or.inr (Or.inl h)
      · exact Or.inl h)

theorem cJSON_GetObjectItem_registry (arraySyscap : List SyscapWithNum) (name : List Nat) :
    cJSON_GetObjectItem (CreateWholeSyscapJsonObj arraySyscap) name =
      (registryEntry arraySyscap name).map (fun e => (e.num : Int)) := by
  unfold cJSON_GetObjectItem CreateWholeSyscapJsonObj registryEntry
  rw [List.find?_map, Option.map_map]
  rfl

theorem strncpy_s_slot (destMax : Nat) (src : List Nat) (h : 128 ≤ destMax) :
    strncpy_s destMax src (SINGLE_FEAT_LENGTH - 1) = (EOK, src.take 127) := by
  unfold strncpy_s
  simp only [SINGLE_FEAT_LENGTH, Nat.reduceSub]
  rw [if_neg (by omega), if_pos (by rw [List.length_take]; omega)]

theorem partitionLoop_eq (arraySyscap : List SyscapWithNum) (destMax : Nat) (l : List (List Nat)) :
    ∀ (os : List Nat) (pri : List (List Nat)), (l ≠ [] → 128 ≤ destMax) →
      partitionLoop (CreateWholeSyscapJsonObj arraySyscap) destMax l 0 os pri =
        .ok (0,
          os ++ l.filterMap (fun nm => (registryEntry arraySyscap nm).map (fun e => e.num % 65536)),
          pri ++ (l.filter (fun nm => (registryEntry arraySyscap nm).isNone)).map (List.take 127))
    := by
  induction l with
  | nil => intro os pri _; simp [partitionLoop]
  | cons nm rest ih =>
    intro os pri hdest
    have hd : 128 ≤ destMax := hdest (by simp)
    unfold partitionLoop
    rw [cJSON_GetObjectItem_registry]
    cases he : registryEntry arraySyscap nm with
    | none =>
      simp only [Option.map_none', strncpy_s_slot _ _ hd, ne_eq, not_true_eq_false, if_false]
      rw [ih _ _ (fun _ => hd)]
      simp [List.filterMap_cons, List.filter_cons, he]
    | some e =>
      simp only [Option.map_some']
      rw [ih _ _ (fun _ => hd)]
      simp [List.filterMap_cons, List.filter_cons, he, toU16_natCast]

theorem partitionLoop_names (arraySyscap : List SyscapWithNum) (names : List (List Nat)) :
    partitionLoop (CreateWholeSyscapJsonObj arraySyscap) (names.length * SINGLE_FEAT_LENGTH)
        names 0 [] [] =
      .ok (0,
        names.filterMap (fun nm => (registryEntry arraySyscap nm).map (fun e => e.num % 65536)),
        (names.filter (fun nm => (registryEntry arraySyscap nm).isNone)).map (List.take 127)) := by
  have h := partitionLoop_eq arraySyscap (names.length * SINGLE_FEAT_LENGTH) names [] []
    (by
      intro hne
      have := List.length_pos.mpr hne
      simp only [SINGLE_FEAT_LENGTH]; omega)
  simpa using h

/-- C15 (as amended): for every registry and every list of decoded names of at most
127 bytes each, the partition loop of DecodeRpcidToString sends each name to exactly
one of the two outputs: to the OS index list, as the number of the first registry
entry whose name equals it without regard to the case of letters, if and only if
there is such an entry, otherwise to the private list, as it is; the two counts add
up to the number of names, and each output keeps the relative order of its
elements. -/
theorem partition_complete (arraySyscap : List SyscapWithNum) (names : List (List Nat))
    (hlen : ∀ nm ∈ names, nm.length ≤ 127) :
    partitionLoop (CreateWholeSyscapJsonObj arraySyscap) (names.length * SINGLE_FEAT_LENGTH)
        names 0 [] [] =
      .ok (0,
        names.filterMap (fun nm => (registryEntry arraySyscap nm).map (fun e => e.num % 65536)),
        names.filter (fun nm => (registryEntry arraySyscap nm).isNone)) ∧
    (names.filterMap
        (fun nm => (registryEntry arraySyscap nm).map (fun e => e.num % 65536))).length +
      (names.filter (fun nm => (registryEntry arraySyscap nm).isNone)).length = names.length ∧
    (∀ nm, (registryEntry arraySyscap nm).isSome = true ↔
      ∃ e ∈ arraySyscap, sameNameNoCase e.syscapStr nm = true) := by
  refine ⟨?_, ?_, ?_⟩
  · have h := partitionLoop_eq arraySyscap (names.length * SINGLE_FEAT_LENGTH) names [] []
      (by
        intro hne
        have := List.length_pos.mpr hne
        simp only [SINGLE_FEAT_LENGTH]; omega)
    have hid : (names.filter (fun nm => (registryEntry arraySyscap nm).isNone)).map
        (List.take 127) = names.filter (fun nm => (registryEntry arraySyscap nm).isNone) := by
      have hc : (names.filter (fun nm => (registryEntry arraySyscap nm).isNone)).map
          (List.take 127) =
          (names.filter (fun nm => (registryEntry arraySyscap nm).isNone)).map id :=
        List.map_congr_left (fun nm hnm =>
          List.take_of_length_le (hlen nm (List.mem_of_mem_filter hnm)))
      rw [hc, List.map_id]
    rw [hid] at h
    simpa using h
  · induction names with
    | nil => rfl
    | cons nm rest ih =>
      have ih := ih (fun x hx => hlen x (List.mem_cons_of_mem _ hx))
      cases he : registryEntry arraySyscap nm with
      | none =>
        simp only [List.filterMap_cons, List.filter_cons, he, Option.map_none', Option.isNone_none,
          if_true, List.length_cons] at ih ⊢
        omega
      | some e =>
        simp only [List.filterMap_cons, List.filter_cons, he, Option.map_some', Option.isNone_some,
          List.length_cons] at ih ⊢
        simp only [Bool.false_eq_true, if_false]
        omega
  · intro nm
    unfold registryEntry
    rw [List.find?_isSome]

set_option maxRecDepth 1000000 in
/-- Witness of partition_complete: with the registry that numbers "SystemCapability.A"
5, the names "SystemCapability.A", "SystemCapability.Vendor.X" and
"SystemCapability.A" again, all under 128 bytes, go to the OS index list as 5 and 5
and to the private list as the one complete name, three elements in all. -/
theorem partition_complete_witness :
    (∀ nm ∈ [ascii "SystemCapability.A", ascii "SystemCapability.Vendor.X",
        ascii "SystemCapability.A"], nm.length ≤ 127) ∧
    partitionLoop
        (CreateWholeSyscapJsonObj [{ syscapStr := ascii "SystemCapability.A", num := 5 }])
        (3 * SINGLE_FEAT_LENGTH)
        [ascii "SystemCapability.A", ascii "SystemCapability.Vendor.X",
          ascii "SystemCapability.A"] 0 [] [] =
      .ok (0, [5, 5], [ascii "SystemCapability.Vendor.X"]) :=
  ⟨by decide,
    (partition_complete [{ syscapStr := ascii "SystemCapability.A", num := 5 }]
      [ascii "SystemCapability.A", ascii "SystemCapability.Vendor.X",
        ascii "SystemCapability.A"] (by decide)).1⟩

set_option maxRecDepth 1000000 in
/-- C15 (counterexample): with the registry that numbers "SystemCapability.A" 5, the
decoded name "SystemCapability.a", which is not a name of the registry, goes to the
OS index list as 5 and not to the private list; DecodeRpcidToString on the file that
holds this one name writes bit 5 of the bitmap (word 2 is 32) and no private name. -/
theorem partition_matches_without_case :
    partitionLoop
        (CreateWholeSyscapJsonObj [{ syscapStr := ascii "SystemCapability.A", num := 5 }])
        (1 * SINGLE_FEAT_LENGTH) [ascii "SystemCapability.a"] 0 [] [] = .ok (0, [5], []) ∧
    ascii "SystemCapability.a" ∉
      [({ syscapStr := ascii "SystemCapability.A", num := 5 } : SyscapWithNum)].map
        (fun e => e.syscapStr) ∧
    DecodeRpcidToString [{ syscapStr := ascii "SystemCapability.A", num := 5 }]
        ([0, 137, 0, 2, 0, 128] ++ slotOf (ascii "a")) =
      .exit 0 (some (ascii
        "9,128,32,0,0,0,0,0,0,0,0,0,0,0,0,0,0,0,0,0,0,0,0,0,0,0,0,0,0,0,0,0")) := by
  refine ⟨by decide, by decide, by decide⟩

set_option maxRecDepth 1000000 in
/-- C16 (the failing input): the file that holds the one name "SystemCapability."
followed by 111 letters A (128 bytes), read with an empty registry. ParseRpcidToJson
decodes the complete name, the partition loop stores its first 127 bytes, and
RPCID.txt ends with "SystemCapability." and 110 letters A: the last letter is lost. -/
theorem private_name_is_truncated :
    ParseRpcidToJson ([0, 137, 0, 2, 0, 128] ++ slotOf (List.replicate 111 65) ++ [0]) 135 =
      .ok { api_version := some 9, syscap := some [capHead ++ List.replicate 111 65] } ∧
    partitionLoop (CreateWholeSyscapJsonObj []) (1 * SINGLE_FEAT_LENGTH)
        [capHead ++ List.replicate 111 65] 0 [] [] =
      .ok (0, [], [capHead ++ List.replicate 110 65]) ∧
    DecodeRpcidToString [] ([0, 137, 0, 2, 0, 128] ++ slotOf (List.replicate 111 65)) =
      .exit 0 (some (ascii
        "9,128,0,0,0,0,0,0,0,0,0,0,0,0,0,0,0,0,0,0,0,0,0,0,0,0,0,0,0,0,0,0," ++
        capHead ++ List.replicate 110 65)) := by
  refine ⟨by decide, by decide, by decide⟩

theorem appendFields_ok_inv (fields : List (List Nat)) (outBufferLen : Nat) :
    ∀ (outBuffer out : List Nat), appendFields fields outBufferLen outBuffer = .ok out →
      out = outBuffer ++ (fields.map (fun f => 44 :: f)).flatten := by
  induction fields with
  | nil =>
    intro outBuffer out h
    simp only [appendFields, Res.ok.injEq] at h
    simp [h]
  | cons f rest ih =>
    intro outBuffer out h
    unfold appendFields sprintf_s at h
    by_cases hfit : (outBuffer ++ 44 :: f).length + 1 ≤ outBufferLen
    · rw [if_pos hfit] at h
      simp only [] at h
      rw [if_neg (by omega)] at h
      rw [ih _ _ h]
      simp
    · rw [if_neg hfit] at h
      simp at h

theorem intercalate_comma (f : List Nat) (fields : List (List Nat)) :
    f ++ (fields.map (fun g => 44 :: g)).flatten = List.intercalate [44] (f :: fields) := by
  induction fields generalizing f with
  | nil => simp [List.intercalate]
  | cons g rest ih =>
    have := ih g
    simp only [List.intercalate, List.map_cons, List.flatten_cons, List.intersperse_cons_cons,
      List.cons_append, List.singleton_append, List.nil_append] at this ⊢
    rw [this]

theorem DecodeRpcidToString_ok_inv (arraySyscap : List SyscapWithNum)
    (inputFile text : List Nat)
    (h : DecodeRpcidToString arraySyscap inputFile = .exit 0 (some text)) :
    ∃ (contextBuffer : List Nat) (bufferLen : Nat) (json : Json) (names : List (List Nat))
      (w0 w2 : Nat) (bitmap : List Nat),
      CheckRpcidFormat inputFile = .ok (contextBuffer, bufferLen) ∧
      ParseRpcidToJson contextBuffer bufferLen = .ok json ∧ json.syscap = some names ∧
      load16 contextBuffer 0 = some w0 ∧ load16 contextBuffer 4 = some w2 ∧
      SetOsSysCapBitMap (List.replicate 120 0) 120 (osIndexList arraySyscap names) =
        some (0, bitmap) ∧
      text = List.intercalate [44]
        ((NtohsInter (getApiVersion w0) :: NtohsInter w2 :: wordsOfBytes bitmap).map utoa ++
          privateList arraySyscap names) := by
  cases hc : CheckRpcidFormat inputFile with
  | fault => simp [DecodeRpcidToString, hc] at h
  | fail r => simp [DecodeRpcidToString, hc] at h
  | ok val =>
    obtain ⟨contextBuffer, bufferLen⟩ := val
    cases hp : ParseRpcidToJson contextBuffer bufferLen with
    | fault => simp [DecodeRpcidToString, hc, hp] at h
    | fail r => simp [DecodeRpcidToString, hc, hp] at h
    | ok json =>
      cases hs : json.syscap with
      | none => simp [DecodeRpcidToString, hc, hp, hs] at h
      | some names =>
        have hlen := ParseRpcidToJson_ok_length _ _ _ _ hp hs
        have h1 : toInt32 names.length = (names.length : Int) := toInt32_small _ (by omega)
        have h5 : ¬ ((names.length : Int) < 0) := by omega
        have hpart := partitionLoop_names arraySyscap names
        obtain ⟨rfl, _, hck⟩ := CheckRpcidFormat_ok_inv _ _ _ hc
        obtain ⟨h8, w0, w1, w2, hw0, _, _, _, hw2, _⟩ := (checkRpcidBuffer_ok_iff _ _).mp hck
        simp only [DecodeRpcidToString, hc, hp, hs, h1, if_neg h5, Int.toNat_ofNat,
          List.take_length, hpart, hw0, hw2] at h
        cases hset : SetOsSysCapBitMap (List.replicate BYTES_OF_OS_SYSCAP 0) 120
            (List.filterMap (fun nm => Option.map (fun e => e.num % 65536)
              (registryEntry arraySyscap nm)) names) with
        | none => simp [hset] at h
        | some val =>
          obtain ⟨ret2, bitmap⟩ := val
          simp only [hset] at h
          split at h
          · exact absurd h (by simp)
          · rename_i hret
            simp only [ne_eq, not_not] at hret
            subst hret
            unfold sprintf_s at h
            split at h
            · simp only [] at h
              rw [if_neg (by omega)] at h
              split at h
              · exact absurd h (by simp)
              · exact absurd h (by simp)
              · rename_i out happ
                simp only [Outcome.exit.injEq, Option.some.injEq, true_and] at h
                subst h
                have := appendFields_ok_inv _ _ _ _ happ
                refine ⟨_, _, json, names, w0, w2, bitmap, rfl, hp, hs, hw0, hw2, hset, ?_⟩
                rw [this, intercalate_comma]
                simp [privateList]
            · simp at h

theorem digitChar_toNat (d : Nat) (h : d < 10) :
    48 ≤ (Nat.digitChar d).toNat ∧ (Nat.digitChar d).toNat ≤ 57 := by
  interval_cases d <;> decide

theorem toDigitsCore_digits (fuel : Nat) :
    ∀ (n : Nat) (ds : List Char), (∀ c ∈ ds, 48 ≤ c.toNat ∧ c.toNat ≤ 57) →
      ∀ c ∈ Nat.toDigitsCore 10 fuel n ds, 48 ≤ c.toNat ∧ c.toNat ≤ 57 := by
  induction fuel with
  | zero => intro n ds h c hc; exact h c (by simpa [Nat.toDigitsCore] using hc)
  | succ f ih =>
    intro n ds h c hc
    have hd := digitChar_toNat (n % 10) (Nat.mod_lt _ (by norm_num))
    have hcons : ∀ c ∈ Nat.digitChar (n % 10) :: ds, 48 ≤ c.toNat ∧ c.toNat ≤ 57 := by
      intro c hc
      rcases List.mem_cons.mp hc with rfl | hc
      · exact hd
      · exact h c hc
    unfold Nat.toDigitsCore at hc
    simp only [] at hc
    split at hc
    · exact hcons c hc
    · exact ih _ _ hcons c hc

theorem utoa_digits (n : Nat) : ∀ b ∈ utoa n, 48 ≤ b ∧ b ≤ 57 := by
  intro b hb
  unfold utoa Nat.toDigits at hb
  obtain ⟨c, hc, rfl⟩ := List.mem_map.mp hb
  exact toDigitsCore_digits _ _ [] (by simp) c hc

theorem utoa_no_comma (n : Nat) : 44 ∉ utoa n := by
  intro h
  have := utoa_digits n 44 h
  omega

theorem wordsOfBytes_length (bm : List Nat) : (wordsOfBytes bm).length = bm.length / 4 := by
  induction bm using wordsOfBytes.induct with
  | case1 b0 b1 b2 b3 rest ih =>
    simp only [wordsOfBytes, List.length_cons, ih]
    omega
  | case2 l hl =>
    have hw : wordsOfBytes l = [] := by
      unfold wordsOfBytes
      split
      · exact absurd rfl (hl _ _ _ _ _)
      · rfl
    rw [hw]
    match l, hl with
    | [], _ => rfl
    | [_], _ => simp
    | [_, _], _ => simp
    | [_, _, _], _ => simp
    | b0 :: b1 :: b2 :: b3 :: rest, hl => exact absurd rfl (hl b0 b1 b2 b3 rest)


theorem testBit_word (b0 b1 b2 b3 j : Nat) (h0 : b0 < 256) (h1 : b1 < 256) (h2 : b2 < 256) :
    (b0 + 256 * b1 + 65536 * b2 + 16777216 * b3).testBit j =
      if j < 8 then b0.testBit j
      else if j < 16 then b1.testBit (j - 8)
      else if j < 24 then b2.testBit (j - 16)
      else b3.testBit (j - 24) := by
  have e : b0 + 256 * b1 + 65536 * b2 + 16777216 * b3 =
      2 ^ 8 * (2 ^ 8 * (2 ^ 8 * b3 + b2) + b1) + b0 := by norm_num; omega
  rw [e, Nat.testBit_mul_pow_two_add _ (by norm_num; exact h0)]
  by_cases hj : j < 8
  · rw [if_pos hj, if_pos hj]
  · rw [if_neg hj, if_neg hj, Nat.testBit_mul_pow_two_add _ (by norm_num; exact h1)]
    by_cases hj2 : j < 16
    · rw [if_pos (by omega), if_pos hj2]
    · rw [if_neg (by omega), if_neg hj2, Nat.testBit_mul_pow_two_add _ (by norm_num; exact h2)]
      by_cases hj3 : j < 24
      · rw [if_pos (by omega), if_pos hj3, show j - 8 - 8 = j - 16 by omega]
      · rw [if_neg (by omega), if_neg hj3, show j - 8 - 8 - 8 = j - 24 by omega]

theorem wordsOfBytes_testBit (bm : List Nat) :
    (∀ b ∈ bm, b < 256) → ∀ i j, i < (wordsOfBytes bm).length →
      ((wordsOfBytes bm).getD i 0).testBit j = (decide (j < 32) && bitAt bm (32 * i + j)) := by
  induction bm using wordsOfBytes.induct with
  | case1 b0 b1 b2 b3 rest ih =>
    intro hb i j hi
    have h0 : b0 < 256 := hb b0 (by simp)
    have h1 : b1 < 256 := hb b1 (by simp)
    have h2 : b2 < 256 := hb b2 (by simp)
    have h3 : b3 < 256 := hb b3 (by simp)
    have hrest : ∀ b ∈ rest, b < 256 := fun b hm => hb b (by simp [hm])
    cases i with
    | zero =>
      simp only [wordsOfBytes, List.getD_cons_zero, Nat.mul_zero, Nat.zero_add]
      rw [testBit_word _ _ _ _ _ h0 h1 h2]
      unfold bitAt
      by_cases hj : j < 8
      · rw [if_pos hj, show j / 8 = 0 by omega, show j % 8 = j by omega]
        simp [show j < 32 by omega]
      · rw [if_neg hj]
        by_cases hj2 : j < 16
        · rw [if_pos hj2, show j / 8 = 1 by omega, show j % 8 = j - 8 by omega]
          simp [show j < 32 by omega]
        · rw [if_neg hj2]
          by_cases hj3 : j < 24
          · rw [if_pos hj3, show j / 8 = 2 by omega, show j % 8 = j - 16 by omega]
            simp [show j < 32 by omega]
          · rw [if_neg hj3]
            by_cases hj4 : j < 32
            · rw [show j / 8 = 3 by omega, show j % 8 = j - 24 by omega]
              simp [hj4]
            · have hp : 256 ≤ 2 ^ (j - 24) := by
                calc 256 = 2 ^ 8 := by norm_num
                  _ ≤ 2 ^ (j - 24) := Nat.pow_le_pow_right (by norm_num) (by omega)
              rw [Nat.testBit_lt_two_pow (lt_of_lt_of_le h3 hp)]
              simp [hj4]
    | succ i =>
      simp only [wordsOfBytes, List.length_cons, Nat.add_lt_add_iff_right] at hi
      simp only [wordsOfBytes, List.getD_cons_succ]
      rw [ih hrest i j hi]
      unfold bitAt
      rw [show (32 * (i + 1) + j) / 8 = (32 * i + j) / 8 + 4 by omega,
        show (32 * (i + 1) + j) % 8 = (32 * i + j) % 8 by omega]
      simp only [List.getD_cons_succ]
  | case2 l hl =>
    intro _ i j hi
    have hw : wordsOfBytes l = [] := by
      unfold wordsOfBytes
      split
      · exact absurd rfl (hl _ _ _ _ _)
      · rfl
    rw [hw] at hi
    simp at hi

theorem SetOsSysCapBitMap_ok_bits (index bitmap : List Nat)
    (h : SetOsSysCapBitMap (List.replicate 120 0) 120 index = some (0, bitmap)) :
    (∀ k ∈ index, k < 960) ∧ bitmap.length = 120 ∧ (∀ b ∈ bitmap, b < 256) ∧
      ∀ k, bitAt bitmap k = decide (k ∈ index) := by
  have hz : ∀ b ∈ List.replicate 120 0, b < 256 := by
    intro b hb; rw [List.eq_of_mem_replicate hb]; norm_num
  have hidx : ∀ k ∈ index, k < 960 := by
    obtain ⟨ret, out1, h1, h2, _, _⟩ := setBitLoop_range index (List.replicate 120 0) (by simp)
    have h' := h
    unfold SetOsSysCapBitMap at h'
    rw [if_neg (by simp), h1] at h'
    simp only [Option.some.injEq, Prod.mk.injEq] at h'
    intro k hk
    by_contra hge
    have : ret ≠ 0 := h2.mpr ⟨k, hk, by omega⟩
    exact this h'.1
  obtain ⟨out1, h1, h2, h3, h4⟩ :=
    SetOsSysCapBitMap_bits (List.replicate 120 0) index (by simp) hz hidx
  rw [h1] at h
  simp only [Option.some.injEq, Prod.mk.injEq, true_and] at h
  subst h
  refine ⟨hidx, h2, h3, fun k => ?_⟩
  rw [h4 k, bitAt_replicate_zero]
  simp

theorem utoa_ne_nil (w : Nat) : utoa w ≠ [] := by
  intro h
  have hlen : (utoa w).length = 0 := by rw [h]; rfl
  unfold utoa Nat.toDigits Nat.toDigitsCore at hlen
  simp only [List.length_map] at hlen
  split at hlen
  · simp at hlen
  · rw [Nat.toDigitsCore_lens_eq] at hlen
    omega

theorem mem_intercalate_comma (b : Nat) (f : List Nat) (fields : List (List Nat))
    (h : b ∈ List.intercalate [44] (f :: fields)) : b = 44 ∨ ∃ g ∈ f :: fields, b ∈ g := by
  rw [← intercalate_comma] at h
  rcases List.mem_append.mp h with h1 | h1
  · exact Or.inr ⟨f, List.mem_cons_self _ _, h1⟩
  · obtain ⟨l, hl, hbl⟩ := List.mem_flatten.mp h1
    obtain ⟨g, hg, rfl⟩ := List.mem_map.mp hl
    rcases List.mem_cons.mp hbl with h2 | h2
    · exact Or.inl h2
    · exact Or.inr ⟨g, List.mem_cons_of_mem _ hg, h2⟩

/-- C18: for every run of DecodeRpcidToString that succeeds, the text written to
RPCID.txt is the comma-joined list of 32 unsigned decimal numbers (the words 0..31)
followed by the private names in order, every byte of it being a digit, a comma or a
byte of a private name; with p private names, none of which
contains a comma, splitting the text at its commas gives exactly these 32 + p
fields; and bit j of word 2 + i (i below 30) is set if and only if j is below 32 and
32 i + j is one of the registry indices present, so that index k sits in bit
(k mod 32) of word 2 + (k div 32) and no other bit of words 2..31 is set. -/
theorem text_rendering (arraySyscap : List SyscapWithNum) (inputFile text : List Nat)
    (h : DecodeRpcidToString arraySyscap inputFile = .exit 0 (some text)) :
    ∃ (contextBuffer : List Nat) (bufferLen : Nat) (json : Json) (names : List (List Nat))
      (words : List Nat),
      CheckRpcidFormat inputFile = .ok (contextBuffer, bufferLen) ∧
      ParseRpcidToJson contextBuffer bufferLen = .ok json ∧ json.syscap = some names ∧
      words.length = 32 ∧
      text = List.intercalate [44] (words.map utoa ++ privateList arraySyscap names) ∧
      (∀ w ∈ words, utoa w ≠ [] ∧ ∀ b ∈ utoa w, 48 ≤ b ∧ b ≤ 57) ∧
      (∀ b ∈ text, (48 ≤ b ∧ b ≤ 57) ∨ b = 44 ∨
        ∃ nm ∈ privateList arraySyscap names, b ∈ nm) ∧
      ((∀ nm ∈ privateList arraySyscap names, 44 ∉ nm) →
        text.splitOn 44 = words.map utoa ++ privateList arraySyscap names ∧
        (text.splitOn 44).length = 32 + (privateList arraySyscap names).length) ∧
      (∀ k ∈ osIndexList arraySyscap names, k < 960) ∧
      (∀ i j, i < 30 → ((words.getD (2 + i) 0).testBit j = true ↔
        j < 32 ∧ 32 * i + j ∈ osIndexList arraySyscap names)) ∧
      (∀ k ∈ osIndexList arraySyscap names,
        (words.getD (2 + k / 32) 0).testBit (k % 32) = true) := by
  obtain ⟨buf, len, json, names, w0, w2, bitmap, hc, hp, hs, _, _, hset, htext⟩ :=
    DecodeRpcidToString_ok_inv arraySyscap inputFile text h
  obtain ⟨hidx, hblen, hbb, hbits⟩ := SetOsSysCapBitMap_ok_bits _ _ hset
  have hwlen : (wordsOfBytes bitmap).length = 30 := by
    rw [wordsOfBytes_length, hblen]
  have hbit : ∀ i j, i < 30 →
      (((NtohsInter (getApiVersion w0) :: NtohsInter w2 :: wordsOfBytes bitmap).getD (2 + i) 0).testBit
        j = true ↔ j < 32 ∧ 32 * i + j ∈ osIndexList arraySyscap names) := by
    intro i j hi
    rw [show 2 + i = i + 1 + 1 by omega, List.getD_cons_succ, List.getD_cons_succ,
      wordsOfBytes_testBit bitmap hbb i j (by omega), hbits]
    simp
  refine ⟨buf, len, json, names,
    NtohsInter (getApiVersion w0) :: NtohsInter w2 :: wordsOfBytes bitmap,
    hc, hp, hs, by simp [hwlen], htext, ?_, ?_, ?_, hidx, hbit, ?_⟩
  · intro w _
    exact ⟨utoa_ne_nil w, utoa_digits w⟩
  · intro b hb
    rw [htext] at hb
    simp only [List.map_cons, List.cons_append] at hb
    rcases mem_intercalate_comma b _ _ hb with h1 | ⟨g, hg, hbg⟩
    · exact Or.inr (Or.inl h1)
    · have hg2 : g ∈ (NtohsInter (getApiVersion w0) :: NtohsInter w2 ::
          wordsOfBytes bitmap).map utoa ++ privateList arraySyscap names := by
        simpa using hg
      rcases List.mem_append.mp hg2 with h1 | h1
      · obtain ⟨w, _, rfl⟩ := List.mem_map.mp h1
        exact Or.inl (utoa_digits w b hbg)
      · exact Or.inr (Or.inr ⟨g, h1, hbg⟩)
  · intro hno
    have hsplit : text.splitOn 44 =
        (NtohsInter (getApiVersion w0) :: NtohsInter w2 :: wordsOfBytes bitmap).map utoa ++
          privateList arraySyscap names := by
      rw [htext]
      apply List.splitOn_intercalate
      · intro l hl
        rcases List.mem_append.mp hl with h1 | h1
        · obtain ⟨w, _, rfl⟩ := List.mem_map.mp h1
          exact utoa_no_comma w
        · exact hno l h1
      · simp
    refine ⟨hsplit, ?_⟩
    rw [hsplit]
    simp [hwlen]
    omega
  · intro k hk
    have hk960 := hidx k hk
    rw [hbit (k / 32) (k % 32) (by omega)]
    refine ⟨Nat.mod_lt _ (by norm_num), ?_⟩
    rw [show 32 * (k / 32) + k % 32 = k by omega]
    exact hk

set_option maxRecDepth 1000000 in
/-- Witness of text_rendering: the file with the slots "Communication.WiFi" and "A",
read with a registry that numbers "SystemCapability.Communication.WiFi" 33: the text
has 33 fields, word 3 is 2 (bit 1), and the private name is "SystemCapability.A". -/
theorem text_rendering_witness :
    DecodeRpcidToString [{ syscapStr := ascii "SystemCapability.Communication.WiFi", num := 33 }]
        ([0, 137, 0, 2, 1, 0] ++ slotOf (ascii "Communication.WiFi") ++ slotOf (ascii "A")) =
      .exit 0 (some (ascii
        "9,256,0,2,0,0,0,0,0,0,0,0,0,0,0,0,0,0,0,0,0,0,0,0,0,0,0,0,0,0,0,0,SystemCapability.A")) ∧
    ∃ (contextBuffer : List Nat) (bufferLen : Nat) (json : Json) (names : List (List Nat))
      (words : List Nat),
      CheckRpcidFormat
          ([0, 137, 0, 2, 1, 0] ++ slotOf (ascii "Communication.WiFi") ++ slotOf (ascii "A")) =
        .ok (contextBuffer, bufferLen) ∧
      ParseRpcidToJson contextBuffer bufferLen = .ok json ∧ json.syscap = some names ∧
      words.length = 32 ∧
      ascii "9,256,0,2,0,0,0,0,0,0,0,0,0,0,0,0,0,0,0,0,0,0,0,0,0,0,0,0,0,0,0,0,SystemCapability.A"
        = List.intercalate [44] (words.map utoa ++
          privateList [{ syscapStr := ascii "SystemCapability.Communication.WiFi", num := 33 }]
            names) :=
  ⟨by decide,
    by
      obtain ⟨b, l, j, n, w, h1, h2, h3, h4, h5, _⟩ := text_rendering
        [{ syscapStr := ascii "SystemCapability.Communication.WiFi", num := 33 }]
        ([0, 137, 0, 2, 1, 0] ++ slotOf (ascii "Communication.WiFi") ++ slotOf (ascii "A"))
        (ascii
          "9,256,0,2,0,0,0,0,0,0,0,0,0,0,0,0,0,0,0,0,0,0,0,0,0,0,0,0,0,0,0,0,SystemCapability.A")
        (by decide)
      exact ⟨b, l, j, n, w, h1, h2, h3, h4, h5⟩⟩

theorem testBit_mask (i : Nat) : (65407 : Nat).testBit i = (decide (i < 16) && decide (i ≠ 7)) := by
  by_cases hi : i < 16
  · interval_cases i <;> decide
  · have hp : 65407 < 2 ^ i := by
      calc 65407 < 2 ^ 16 := by norm_num
        _ ≤ 2 ^ i := Nat.pow_le_pow_right (by norm_num) (by omega)
    rw [Nat.testBit_lt_two_pow hp]
    simp [hi]

theorem land_mask (u : Nat) (hu : u < 65536) :
    u &&& 65407 = 256 * (u / 256 % 256) + u % 128 := by
  apply Nat.eq_of_testBit_eq
  intro i
  have e : 256 * (u / 256 % 256) + u % 128 = 2 ^ 8 * (u >>> 8) + u % 2 ^ 7 := by
    rw [Nat.shiftRight_eq_div_pow]
    norm_num
    omega
  rw [Nat.testBit_and, testBit_mask, e,
    Nat.testBit_mul_pow_two_add _ (lt_of_lt_of_le (Nat.mod_lt _ (by norm_num)) (by norm_num)),
    Nat.testBit_mod_two_pow]
  by_cases h8 : i < 8
  · rw [if_pos h8]
    by_cases h7 : i = 7
    · subst h7; simp
    · have : i < 7 := by omega
      simp [this, h7, show i < 16 by omega]
  · rw [if_neg h8, Nat.testBit_shiftRight, show 8 + (i - 8) = i by omega]
    by_cases h16 : i < 16
    · simp [h16, show i ≠ 7 by omega]
    · have hp : u < 2 ^ i := by
        calc u < 2 ^ 16 := by norm_num; exact hu
          _ ≤ 2 ^ i := Nat.pow_le_pow_right (by norm_num) (by omega)
      rw [Nat.testBit_lt_two_pow hp]
      simp

/-- C19: on the little-endian host, for every api_version v in 0..65535 given to
RPCIDEncode (with a list of at most 511 names "SystemCapability." + suffix, each
suffix a string shorter than 128 bytes), the api_version that ParseRpcidToJson reads
back from the encoded file is v AND 0xFF7F, that is v with bit 7 cleared, and it
equals v exactly when bit 7 of v is 0. -/
theorem api_version_read_back (v : Int) (sufs : List (List Nat))
    (hv : 0 ≤ v ∧ v < 65536) (hn : sufs.length ≤ 511)
    (hl : ∀ suf ∈ sufs, suf.length < 128 ∧ ∀ b ∈ suf, b ≠ 0) :
    ∃ (file : List Nat) (readBack : Nat),
      RPCIDEncode { api_version := some v, syscap := some (sufs.map (capHead ++ ·)) }
        = .exit 0 (some file) ∧
      ParseRpcidToJson (file ++ [0]) (file.length + 1) =
        .ok { api_version := some (readBack : Int),
              syscap := some (sufs.map (capHead ++ ·)) } ∧
      readBack = v.toNat &&& 65407 ∧
      readBack = v.toNat - 128 * (v.toNat / 128 % 2) ∧
      ((readBack : Int) = v ↔ v.toNat / 128 % 2 = 0) := by
  have hle : ∀ suf ∈ sufs, suf.length ≤ 128 := fun suf h => Nat.le_of_lt (hl suf h).1
  have hu : toU16 v = v.toNat := by unfold toU16; omega
  have hlt : v.toNat < 65536 := by omega
  refine ⟨_, 256 * (toU16 v / 256 % 256) + toU16 v % 128,
    RPCIDEncode_wellformed v sufs (by omega) hle,
    ParseRpcidToJson_encoded (toU16 v) _ sufs hn hl, ?_, ?_, ?_⟩
  · rw [hu, land_mask _ hlt]
  · rw [hu]; omega
  · rw [hu]; omega

/-- Witness of api_version_read_back: api_version 128 with the name
"SystemCapability.Communication.WiFi" reads back as 0, and api_version 9 as 9. -/
theorem api_version_read_back_witness :
    (∃ (file : List Nat) (readBack : Nat),
      RPCIDEncode { api_version := some 128,
                    syscap := some ([ascii "Communication.WiFi"].map (capHead ++ ·)) }
        = .exit 0 (some file) ∧
      ParseRpcidToJson (file ++ [0]) (file.length + 1) =
        .ok { api_version := some (readBack : Int),
              syscap := some ([ascii "Communication.WiFi"].map (capHead ++ ·)) } ∧
      readBack = (128 : Int).toNat &&& 65407 ∧
      readBack = (128 : Int).toNat - 128 * ((128 : Int).toNat / 128 % 2) ∧
      ((readBack : Int) = 128 ↔ (128 : Int).toNat / 128 % 2 = 0)) ∧
    (128 : Int).toNat &&& 65407 = 0 ∧ (9 : Int).toNat &&& 65407 = 9 :=
  ⟨api_version_read_back 128 [ascii "Communication.WiFi"] (by decide) (by decide) (by decide),
    by decide, by decide⟩

set_option maxRecDepth 1000000 in
/-- C20: the length that CheckRpcidFormat checks is the one GetFileContext reports,
the byte count of the file plus one for the appended NUL. So the 7-byte file
00 80 00 02 00 02 41, which declares 2 bytes of names and is one byte short of the
8 bytes it declares, is accepted, and so is the 133-byte file that declares 128 bytes
of names and holds 127; RPCIDDecode and DecodeRpcidToString go on to decode both. -/
theorem validator_length_counts_the_nul :
    (∀ file : List Nat, file ≠ [] → file.length + 1 < 4294967296 →
      GetFileContext file = some (file ++ [0], file.length + 1)) ∧
    ([0, 128, 0, 2, 0, 2, 65].length = 7 ∧
      [0, 128, 0, 2, 0, 2, 65].length + 1 = 6 + be16At [0, 128, 0, 2, 0, 2, 65] 4 ∧
      CheckRpcidFormat [0, 128, 0, 2, 0, 2, 65] = .ok ([0, 128, 0, 2, 0, 2, 65, 0], 8) ∧
      RPCIDDecode [0, 128, 0, 2, 0, 2, 65] =
        .exit 0 (some { api_version := some 0, syscap := some [] }) ∧
      DecodeRpcidToString [] [0, 128, 0, 2, 0, 2, 65] =
        .exit 0 (some (ascii
          "0,2,0,0,0,0,0,0,0,0,0,0,0,0,0,0,0,0,0,0,0,0,0,0,0,0,0,0,0,0,0,0"))) ∧
    (([0, 137, 0, 2, 0, 128] ++ List.replicate 127 65).length + 1 =
        6 + be16At ([0, 137, 0, 2, 0, 128] ++ List.replicate 127 65) 4 ∧
      CheckRpcidFormat ([0, 137, 0, 2, 0, 128] ++ List.replicate 127 65) =
        .ok ([0, 137, 0, 2, 0, 128] ++ List.replicate 127 65 ++ [0], 134) ∧
      RPCIDDecode ([0, 137, 0, 2, 0, 128] ++ List.replicate 127 65) =
        .exit 0 (some { api_version := some 9,
                        syscap := some [capHead ++ List.replicate 127 65] }) ∧
      DecodeRpcidToString [] ([0, 137, 0, 2, 0, 128] ++ List.replicate 127 65) =
        .exit 0 (some (ascii
          "9,128,0,0,0,0,0,0,0,0,0,0,0,0,0,0,0,0,0,0,0,0,0,0,0,0,0,0,0,0,0,0," ++
          capHead ++ List.replicate 110 65))) := by
  refine ⟨?_, ⟨by decide, by decide, by decide, by decide, by decide⟩,
    ⟨by decide, by decide, by decide, by decide⟩⟩
  intro file hne hsize
  unfold GetFileContext
  rw [if_neg (by intro h; exact hne (List.length_eq_zero.mp h)), toU32_small _ hsize]

theorem utoa_length_le (w : Nat) (h : w < 4294967296) : (utoa w).length ≤ 10 := by
  unfold utoa Nat.toDigits
  rw [List.length_map]
  exact Nat.toDigitsCore_length 10 (by omega) (w + 1) w 10 (by omega) (by omega)

theorem wordsOfBytes_lt (bm : List Nat) (hb : ∀ b ∈ bm, b < 256) :
    ∀ w ∈ wordsOfBytes bm, w < 4294967296 := by
  induction bm using wordsOfBytes.induct with
  | case1 b0 b1 b2 b3 rest ih =>
    intro w hw
    simp only [wordsOfBytes, List.mem_cons] at hw
    have h0 := hb b0 (by simp)
    have h1 := hb b1 (by simp)
    have h2 := hb b2 (by simp)
    have h3 := hb b3 (by simp)
    rcases hw with rfl | hw
    · omega
    · exact ih (fun b hm => hb b (by simp [hm])) w hw
  | case2 l hl =>
    have hw : wordsOfBytes l = [] := by
      unfold wordsOfBytes
      split
      · exact absurd rfl (hl _ _ _ _ _)
      · rfl
    rw [hw]
    simp

theorem fields_length_le (bound : Nat) (fields : List (List Nat))
    (h : ∀ f ∈ fields, f.length ≤ bound) :
    ((fields.map (fun f => 44 :: f)).flatten).length ≤ fields.length * (bound + 1) := by
  induction fields with
  | nil => simp
  | cons f rest ih =>
    have hf := h f (List.mem_cons_self _ _)
    have hr := ih (fun g hg => h g (List.mem_cons_of_mem _ hg))
    simp only [List.map_cons, List.flatten_cons, List.length_append, List.length_cons]
    rw [Nat.add_mul]
    omega

theorem fields_length_replicate (k : Nat) (f : List Nat) :
    (((List.replicate k f).map (fun g => 44 :: g)).flatten).length = k * (f.length + 1) := by
  induction k with
  | zero => simp
  | succ k ih =>
    simp only [List.replicate_succ, List.map_cons, List.flatten_cons, List.length_append,
      List.length_cons, ih]
    rw [Nat.add_mul]
    omega

theorem appendFields_fits (fields : List (List Nat)) (outBufferLen : Nat) :
    ∀ outBuffer : List Nat,
      outBuffer.length + ((fields.map (fun f => 44 :: f)).flatten).length + 1 ≤ outBufferLen →
      appendFields fields outBufferLen outBuffer =
        .ok (outBuffer ++ (fields.map (fun f => 44 :: f)).flatten) := by
  induction fields with
  | nil => intro outBuffer _; simp [appendFields]
  | cons f rest ih =>
    intro outBuffer h
    simp only [List.map_cons, List.flatten_cons, List.length_append, List.length_cons] at h
    have hfit : (outBuffer ++ 44 :: f).length + 1 ≤ outBufferLen := by
      simp only [List.length_append, List.length_cons]; omega
    unfold appendFields sprintf_s
    rw [if_pos hfit]
    simp only []
    rw [if_neg (by omega)]
    rw [ih _ (by simp only [List.length_append, List.length_cons]; omega)]
    simp

theorem appendFields_overflow (fields : List (List Nat)) (outBufferLen : Nat) :
    ∀ outBuffer : List Nat, outBuffer.length + 1 ≤ outBufferLen →
      outBufferLen < outBuffer.length + ((fields.map (fun f => 44 :: f)).flatten).length + 1 →
      appendFields fields outBufferLen outBuffer = .fail (-1) := by
  induction fields with
  | nil => intro outBuffer h1 h2; simp at h2; omega
  | cons f rest ih =>
    intro outBuffer h1 h2
    simp only [List.map_cons, List.flatten_cons, List.length_append, List.length_cons] at h2
    unfold appendFields sprintf_s
    by_cases hfit : (outBuffer ++ 44 :: f).length + 1 ≤ outBufferLen
    · rw [if_pos hfit]
      simp only []
      rw [if_neg (by omega)]
      exact ih _ hfit (by simp only [List.length_append, List.length_cons]; omega)
    · rw [if_neg hfit]
      simp


theorem privateList_length_le (arraySyscap : List SyscapWithNum) (names : List (List Nat)) :
    (privateList arraySyscap names).length ≤ names.length := by
  unfold privateList
  rw [List.length_map]
  exact List.length_filter_le _ _

theorem privateList_name_le (arraySyscap : List SyscapWithNum) (names : List (List Nat)) :
    ∀ f ∈ privateList arraySyscap names, f.length ≤ 127 := by
  intro f hf
  unfold privateList at hf
  obtain ⟨g, _, rfl⟩ := List.mem_map.mp hf
  rw [List.length_take]
  omega

/-- The rendering of DecodeRpcidToString with a buffer length that has not wrapped:
for every file that CheckRpcidFormat and ParseRpcidToJson accept with at most 505
names whose registry indices are all below 960, the function returns 0 with a text
that, with its NUL, is no longer than the 352 + 129 n bytes of the buffer. -/
theorem DecodeRpcidToString_fits (arraySyscap : List SyscapWithNum)
    (inputFile contextBuffer : List Nat) (bufferLen : Nat) (json : Json)
    (names : List (List Nat))
    (hc : CheckRpcidFormat inputFile = .ok (contextBuffer, bufferLen))
    (hp : ParseRpcidToJson contextBuffer bufferLen = .ok json) (hs : json.syscap = some names)
    (hn : names.length ≤ 505) (hidx : ∀ k ∈ osIndexList arraySyscap names, k < 960) :
    toU16 ((U32_TO_STR_MAX_LEN * RPCID_OUT_BUFFER : Nat) +
        ((SINGLE_FEAT_LENGTH + 1 : Nat) : Int) * toInt32 names.length) =
      352 + 129 * names.length ∧
    ∃ text, DecodeRpcidToString arraySyscap inputFile = .exit 0 (some text) ∧
      text.length + 1 ≤ 352 + 129 * names.length := by
  have h1 : toInt32 names.length = (names.length : Int) := toInt32_small _ (by omega)
  have h5 : ¬ ((names.length : Int) < 0) := by omega
  have hpart := partitionLoop_names arraySyscap names
  obtain ⟨rfl, _, hck⟩ := CheckRpcidFormat_ok_inv _ _ _ hc
  obtain ⟨h8, w0, w1, w2, hw0, _, _, _, hw2, _⟩ := (checkRpcidBuffer_ok_iff _ _).mp hck
  have hz : ∀ b ∈ List.replicate 120 0, b < 256 := by
    intro b hb; rw [List.eq_of_mem_replicate hb]; norm_num
  obtain ⟨bitmap, hset, hblen, hbb, _⟩ :=
    SetOsSysCapBitMap_bits (List.replicate 120 0) (osIndexList arraySyscap names) (by simp) hz hidx
  have hlenU : toU16 ((U32_TO_STR_MAX_LEN * RPCID_OUT_BUFFER : Nat) +
      ((SINGLE_FEAT_LENGTH + 1 : Nat) : Int) * (names.length : Int)) =
      352 + 129 * names.length := by
    have : ((U32_TO_STR_MAX_LEN * RPCID_OUT_BUFFER : Nat) : Int) +
        ((SINGLE_FEAT_LENGTH + 1 : Nat) : Int) * (names.length : Int) =
        ((352 + 129 * names.length : Nat) : Int) := by
      simp only [U32_TO_STR_MAX_LEN, RPCID_OUT_BUFFER, SINGLE_FEAT_LENGTH]
      push_cast
      ring
    rw [this, toU16_natCast]
    omega
  refine ⟨by rw [h1]; exact hlenU, ?_⟩
  have hu0 : (utoa (NtohsInter (getApiVersion w0))).length ≤ 10 :=
    utoa_length_le _ (lt_trans (NtohsInter_lt _) (by norm_num))
  have hwords : ∀ f ∈ (NtohsInter w2 :: wordsOfBytes bitmap).map utoa, f.length ≤ 10 := by
    intro f hf
    obtain ⟨w, hw, rfl⟩ := List.mem_map.mp hf
    rcases List.mem_cons.mp hw with rfl | hw
    · exact utoa_length_le _ (lt_trans (NtohsInter_lt _) (by norm_num))
    · exact utoa_length_le _ (wordsOfBytes_lt bitmap hbb w hw)
  have hwl : ((NtohsInter w2 :: wordsOfBytes bitmap).map utoa).length = 31 := by
    rw [List.length_map, List.length_cons, wordsOfBytes_length, hblen]
  have hA := fields_length_le 10 _ hwords
  rw [hwl] at hA
  have hB := fields_length_le 127 _ (privateList_name_le arraySyscap names)
  have hpl := privateList_length_le arraySyscap names
  have hBn : (privateList arraySyscap names).length * (127 + 1) ≤ 128 * names.length := by
    omega
  have htotal : (utoa (NtohsInter (getApiVersion w0))).length +
      ((((NtohsInter w2 :: wordsOfBytes bitmap).map utoa ++ privateList arraySyscap names).map
        (fun f => 44 :: f)).flatten).length + 1 ≤ 352 + 129 * names.length := by
    rw [List.map_append, List.flatten_append, List.length_append]
    omega
  have hfirst : (utoa (NtohsInter (getApiVersion w0))).length + 1 ≤ 352 + 129 * names.length := by
    omega
  have happ := appendFields_fits _ (352 + 129 * names.length) _ htotal
  refine ⟨utoa (NtohsInter (getApiVersion w0)) ++
      ((((NtohsInter w2 :: wordsOfBytes bitmap).map utoa ++ privateList arraySyscap names).map
        (fun f => 44 :: f)).flatten), ?_, by rw [List.length_append]; omega⟩
  unfold osIndexList at hset
  unfold privateList at happ
  simp only [DecodeRpcidToString, hc, hp, hs, h1, if_neg h5, Int.toNat_ofNat,
    List.take_length, hpart, hw0, hw2, BYTES_OF_OS_SYSCAP, hset, hlenU, sprintf_s, if_pos hfirst]
  simp only [ne_eq, not_true_eq_false, if_false, List.drop_succ_cons, List.drop_zero,
    List.map_cons]
  rw [if_neg (by omega)]
  simp only [List.map_cons] at happ
  rw [happ]
  simp only [privateList, List.map_cons]


/-- The rendering of DecodeRpcidToString with a buffer length that has wrapped: for
every file that CheckRpcidFormat and ParseRpcidToJson accept, with registry indices
all below 960, whose private names with their commas take at least as many bytes as
the 16-bit value of 352 + 129 n, the function returns -1 and no text. -/
theorem DecodeRpcidToString_overflow (arraySyscap : List SyscapWithNum)
    (inputFile contextBuffer : List Nat) (bufferLen : Nat) (json : Json)
    (names : List (List Nat))
    (hc : CheckRpcidFormat inputFile = .ok (contextBuffer, bufferLen))
    (hp : ParseRpcidToJson contextBuffer bufferLen = .ok json) (hs : json.syscap = some names)
    (hidx : ∀ k ∈ osIndexList arraySyscap names, k < 960)
    (hover : (352 + 129 * names.length) % 65536 ≤
      (((privateList arraySyscap names).map (fun f => 44 :: f)).flatten).length) :
    DecodeRpcidToString arraySyscap inputFile = .exit (-1) none := by
  have hlen := ParseRpcidToJson_ok_length _ _ _ _ hp hs
  have h1 : toInt32 names.length = (names.length : Int) := toInt32_small _ (by omega)
  have h5 : ¬ ((names.length : Int) < 0) := by omega
  have hpart := partitionLoop_names arraySyscap names
  obtain ⟨rfl, _, hck⟩ := CheckRpcidFormat_ok_inv _ _ _ hc
  obtain ⟨h8, w0, w1, w2, hw0, _, _, _, hw2, _⟩ := (checkRpcidBuffer_ok_iff _ _).mp hck
  have hz : ∀ b ∈ List.replicate 120 0, b < 256 := by
    intro b hb; rw [List.eq_of_mem_replicate hb]; norm_num
  obtain ⟨bitmap, hset, hblen, hbb, _⟩ :=
    SetOsSysCapBitMap_bits (List.replicate 120 0) (osIndexList arraySyscap names) (by simp) hz hidx
  have hlenU : toU16 ((U32_TO_STR_MAX_LEN * RPCID_OUT_BUFFER : Nat) +
      ((SINGLE_FEAT_LENGTH + 1 : Nat) : Int) * (names.length : Int)) =
      (352 + 129 * names.length) % 65536 := by
    have : ((U32_TO_STR_MAX_LEN * RPCID_OUT_BUFFER : Nat) : Int) +
        ((SINGLE_FEAT_LENGTH + 1 : Nat) : Int) * (names.length : Int) =
        ((352 + 129 * names.length : Nat) : Int) := by
      simp only [U32_TO_STR_MAX_LEN, RPCID_OUT_BUFFER, SINGLE_FEAT_LENGTH]
      push_cast
      ring
    rw [this, toU16_natCast]
  unfold osIndexList at hset
  simp only [DecodeRpcidToString, hc, hp, hs, h1, if_neg h5, Int.toNat_ofNat,
    List.take_length, hpart, hw0, hw2, BYTES_OF_OS_SYSCAP, hset, hlenU, sprintf_s]
  simp only [ne_eq, not_true_eq_false, if_false, List.drop_succ_cons, List.drop_zero,
    List.map_cons]
  by_cases hfirst : (utoa (NtohsInter (getApiVersion w0))).length + 1 ≤
      (352 + 129 * names.length) % 65536
  · rw [if_pos hfirst]
    simp only []
    rw [if_neg (by omega)]
    have happ := appendFields_overflow
      ((NtohsInter w2 :: wordsOfBytes bitmap).map utoa ++ privateList arraySyscap names)
      ((352 + 129 * names.length) % 65536) (utoa (NtohsInter (getApiVersion w0))) hfirst
      (by rw [List.map_append, List.flatten_append, List.length_append]; omega)
    simp only [privateList, List.map_cons] at happ
    rw [happ]
  · rw [if_neg hfirst]
    simp

theorem privateList_empty_registry (names : List (List Nat)) :
    privateList [] names = names.map (List.take 127) := by
  unfold privateList registryEntry
  simp

theorem osIndexList_empty_registry (names : List (List Nat)) : osIndexList [] names = [] := by
  unfold osIndexList registryEntry
  simp


/-- The descriptor with api_version 9 and k times the name SystemCapability.A, for k
in 1..511: the file that RPCIDEncode writes for it, and what CheckRpcidFormat and
ParseRpcidToJson make of that file. -/
theorem repeated_name_file (k : Nat) (h1 : 0 < k) (h2 : k ≤ 511) :
    RPCIDEncode ⟨some 9, some (List.replicate k (capHead ++ [65]))⟩ =
      .exit 0 (some (headBytes 9 (128 * k) ++ (List.replicate k (slotOf [65])).flatten)) ∧
    CheckRpcidFormat (headBytes 9 (128 * k) ++ (List.replicate k (slotOf [65])).flatten) =
      .ok (headBytes 9 (128 * k) ++ (List.replicate k (slotOf [65])).flatten ++ [0],
        7 + 128 * k) ∧
    ParseRpcidToJson (headBytes 9 (128 * k) ++ (List.replicate k (slotOf [65])).flatten ++ [0])
        (7 + 128 * k) =
      .ok ⟨some 9, some (List.replicate k (capHead ++ [65]))⟩ := by
  have hl : ∀ suf ∈ List.replicate k [65], suf.length < 128 ∧ ∀ b ∈ suf, b ≠ 0 := by
    intro suf hs
    rw [List.eq_of_mem_replicate hs]
    decide
  have hl' : ∀ suf ∈ List.replicate k [65], suf.length ≤ 128 := fun suf hs =>
    le_of_lt (hl suf hs).1
  have hne : List.replicate k [65] ≠ [] := by
    intro h
    have := congrArg List.length h
    simp at this
    omega
  have hmod : 128 * k % 65536 = 128 * k := Nat.mod_eq_of_lt (by omega)
  have he := RPCIDEncode_wellformed 9 (List.replicate k [65]) (by simp; omega) hl'
  have hc := CheckRpcidFormat_encoded 9 (List.replicate k [65]) hne (by simp; omega) hl'
  have hp := ParseRpcidToJson_encoded 9 (7 + 128 * k) (List.replicate k [65]) (by simp; omega) hl
  have hu : toU16 9 = 9 := by decide
  simp only [List.length_replicate, List.map_replicate, hmod, hu] at he hc hp
  exact ⟨he, hc, hp⟩


/-- C21: the claim fails at 506 slots. The descriptor with api_version 9 and 506
times the name SystemCapability.A is encoded by RPCIDEncode into a file of 64774
bytes that CheckRpcidFormat and ParseRpcidToJson accept with all 506 names, none of
which has a registry index under the empty registry; the buffer length of
DecodeRpcidToString, 352 + 129 * 506 = 65626 held in a uint16_t, is 90, while the
line 9,64768,0,...,0 followed by the 506 names takes 9682 bytes with its NUL; and
DecodeRpcidToString returns -1 without a text, where for 505 such names it renders
the line. -/
theorem rendering_fails_with_506_names :
    RPCIDEncode ⟨some 9, some (List.replicate 506 (capHead ++ [65]))⟩ =
      .exit 0 (some ([0, 137, 0, 2, 253, 0] ++ (List.replicate 506 (slotOf [65])).flatten)) ∧
    CheckRpcidFormat ([0, 137, 0, 2, 253, 0] ++ (List.replicate 506 (slotOf [65])).flatten) =
      .ok ([0, 137, 0, 2, 253, 0] ++ (List.replicate 506 (slotOf [65])).flatten ++ [0], 64775) ∧
    ParseRpcidToJson
        ([0, 137, 0, 2, 253, 0] ++ (List.replicate 506 (slotOf [65])).flatten ++ [0]) 64775 =
      .ok ⟨some 9, some (List.replicate 506 (capHead ++ [65]))⟩ ∧
    osIndexList [] (List.replicate 506 (capHead ++ [65])) = [] ∧
    toU16 ((U32_TO_STR_MAX_LEN * RPCID_OUT_BUFFER : Nat) +
        ((SINGLE_FEAT_LENGTH + 1 : Nat) : Int) * toInt32 506) = 90 ∧
    (List.intercalate [44] ((9 :: 64768 :: List.replicate 30 0).map utoa ++
      List.replicate 506 (capHead ++ [65]))).length + 1 = 9682 ∧
    DecodeRpcidToString []
        ([0, 137, 0, 2, 253, 0] ++ (List.replicate 506 (slotOf [65])).flatten) =
      .exit (-1) none ∧
    (∃ text, DecodeRpcidToString []
        ([0, 137, 0, 2, 252, 128] ++ (List.replicate 505 (slotOf [65])).flatten) =
      .exit 0 (some text)) := by
  obtain ⟨he, hc, hp⟩ := repeated_name_file 506 (by norm_num) (by norm_num)
  obtain ⟨_, hc5, hp5⟩ := repeated_name_file 505 (by norm_num) (by norm_num)
  have hh : headBytes 9 (128 * 506) = [0, 137, 0, 2, 253, 0] := by decide
  have hh5 : headBytes 9 (128 * 505) = [0, 137, 0, 2, 252, 128] := by decide
  rw [hh] at he hc hp
  rw [hh5] at hc5 hp5
  have hname : (capHead ++ [65]).length = 18 := by decide
  have htake : List.take 127 (capHead ++ [65]) = capHead ++ [65] := by decide
  refine ⟨he, hc, hp, osIndexList_empty_registry _, by decide, ?_, ?_, ?_⟩
  · rw [List.map_cons, List.cons_append, ← intercalate_comma, List.length_append,
      List.map_append, List.flatten_append, List.length_append, fields_length_replicate,
      List.map_cons, List.map_cons, List.flatten_cons, List.length_append, List.map_replicate,
      fields_length_replicate, hname]
    decide
  · refine DecodeRpcidToString_overflow [] _ _ _ _ _ hc hp rfl ?_ ?_
    · rw [osIndexList_empty_registry]; simp
    · rw [privateList_empty_registry, List.map_replicate, htake, fields_length_replicate, hname,
        List.length_replicate]
      decide
  · obtain ⟨_, text, ht, _⟩ := DecodeRpcidToString_fits [] _ _ _ _ _ hc5 hp5 rfl
      (by rw [List.length_replicate])
      (by rw [osIndexList_empty_registry]; simp)
    exact ⟨text, ht⟩

end SyscapTool
